import Mathlib

/-!
Verification of the Barnes–Hut orbital simulation (EDA repository).

The development shallowly embeds the C++ sources:
* `src/Claude/orbitalSim.cpp` — the Barnes–Hut octree variant
  (`createNode`, `getOctant`, `getOctantPosition`, `insertBody`,
  `buildOctree`, `calculateAcceleration`, `updateOrbitalSim`,
  `configureAsteroid`);
* `src/code/orbitalSim.cpp` — the direct-summation variant
  (`calculateGravitationalForce`, `calculateAccelerations`,
  `updateOrbitalSim`, `configureAsteroid`);
* `src/unnamed/part_002` — the per-body direct-summation variant
  (its `updateOrbitalSim` direct pairwise sum).

Machine floats are embedded as exact scalars: the octree construction is
generic over a linear ordered field (instantiated at `ℚ` for concrete
evaluation), while force evaluation, which needs `sqrtf`, is embedded
over `ℝ` with `Real.sqrt`.  `rand()` streams are embedded as explicit
lists of values in `[0,1]`.  Recursion in `insertBody`, which the C++
performs on the machine stack, is embedded with an explicit `fuel`
argument; `none` models a call that never returns.
-/

/-- 3D vector over a scalar type, mirroring raylib's `Vector3`. -/
structure Vec3 (K : Type) where
  x : K
  y : K
  z : K
deriving DecidableEq, Repr

attribute [ext] Vec3

namespace Vec3

variable {K : Type} [LinearOrderedField K]

/-- raymath `Vector3Add`. -/
def vadd (a b : Vec3 K) : Vec3 K := ⟨a.x + b.x, a.y + b.y, a.z + b.z⟩

/-- raymath `Vector3Subtract`. -/
def vsub (a b : Vec3 K) : Vec3 K := ⟨a.x - b.x, a.y - b.y, a.z - b.z⟩

/-- raymath `Vector3Scale`. -/
def vscale (a : Vec3 K) (s : K) : Vec3 K := ⟨a.x * s, a.y * s, a.z * s⟩

/-- Zero vector `{0, 0, 0}`. -/
def vzero : Vec3 K := ⟨0, 0, 0⟩

instance : Zero (Vec3 K) := ⟨vzero⟩

instance : Add (Vec3 K) := ⟨vadd⟩

theorem add_def (a b : Vec3 K) : a + b = ⟨a.x + b.x, a.y + b.y, a.z + b.z⟩ := rfl

theorem zero_def : (0 : Vec3 K) = ⟨0, 0, 0⟩ := rfl

instance : AddCommMonoid (Vec3 K) where
  add_assoc a b c := by simp [add_def, add_assoc]
  zero_add a := by simp [add_def, zero_def]
  add_zero a := by simp [add_def, zero_def]
  add_comm a b := by simp [add_def]; refine ⟨by ring, by ring, by ring⟩
  nsmul := nsmulRec

end Vec3

export Vec3 (vadd vsub vscale vzero)

/-- An orbital body (`OrbitalBody` in `OrbitalSim.h`): colors are embedded
as bare numeric tags, `name` as an optional string (`NULL` ↦ `none`). -/
structure Body (K : Type) where
  name : Option String
  mass : K
  radius : K
  color : ℕ
  position : Vec3 K
  velocity : Vec3 K
deriving DecidableEq, Repr

/-- Octree node for Barnes–Hut (`OctreeNode` in the Claude variant's
header).  A `NULL` child pointer is embedded as the `null` constructor,
so the eight `children[i]` pointers are the eight recursive arguments. -/
inductive OctreeNode (K : Type) where
  | null
  | mk (position : Vec3 K) (size : K) (totalMass : K) (centerOfMass : Vec3 K)
       (isLeaf : Bool) (body : Option (Body K))
       (c0 c1 c2 c3 c4 c5 c6 c7 : OctreeNode K)

namespace OctreeNode

variable {K : Type} [LinearOrderedField K]

def position : OctreeNode K → Vec3 K
  | .mk p _ _ _ _ _ _ _ _ _ _ _ _ _ => p
  | .null => ⟨0, 0, 0⟩

def size : OctreeNode K → K
  | .mk _ s _ _ _ _ _ _ _ _ _ _ _ _ => s
  | .null => 0

def totalMass : OctreeNode K → K
  | .mk _ _ m _ _ _ _ _ _ _ _ _ _ _ => m
  | .null => 0

def centerOfMass : OctreeNode K → Vec3 K
  | .mk _ _ _ c _ _ _ _ _ _ _ _ _ _ => c
  | .null => ⟨0, 0, 0⟩

def isLeaf : OctreeNode K → Bool
  | .mk _ _ _ _ l _ _ _ _ _ _ _ _ _ => l
  | .null => false

def body : OctreeNode K → Option (Body K)
  | .mk _ _ _ _ _ b _ _ _ _ _ _ _ _ => b
  | .null => none

/-- `node->children[i]` (out-of-range indices read as `NULL`). -/
def getChild : OctreeNode K → ℕ → OctreeNode K
  | .mk _ _ _ _ _ _ a0 _ _ _ _ _ _ _, 0 => a0
  | .mk _ _ _ _ _ _ _ a1 _ _ _ _ _ _, 1 => a1
  | .mk _ _ _ _ _ _ _ _ a2 _ _ _ _ _, 2 => a2
  | .mk _ _ _ _ _ _ _ _ _ a3 _ _ _ _, 3 => a3
  | .mk _ _ _ _ _ _ _ _ _ _ a4 _ _ _, 4 => a4
  | .mk _ _ _ _ _ _ _ _ _ _ _ a5 _ _, 5 => a5
  | .mk _ _ _ _ _ _ _ _ _ _ _ _ a6 _, 6 => a6
  | .mk _ _ _ _ _ _ _ _ _ _ _ _ _ a7, 7 => a7
  | _, _ => .null

/-- `node->children[i] = c`. -/
def setChild : OctreeNode K → ℕ → OctreeNode K → OctreeNode K
  | .mk p s m c l b _ a1 a2 a3 a4 a5 a6 a7, 0, c' => .mk p s m c l b c' a1 a2 a3 a4 a5 a6 a7
  | .mk p s m c l b a0 _ a2 a3 a4 a5 a6 a7, 1, c' => .mk p s m c l b a0 c' a2 a3 a4 a5 a6 a7
  | .mk p s m c l b a0 a1 _ a3 a4 a5 a6 a7, 2, c' => .mk p s m c l b a0 a1 c' a3 a4 a5 a6 a7
  | .mk p s m c l b a0 a1 a2 _ a4 a5 a6 a7, 3, c' => .mk p s m c l b a0 a1 a2 c' a4 a5 a6 a7
  | .mk p s m c l b a0 a1 a2 a3 _ a5 a6 a7, 4, c' => .mk p s m c l b a0 a1 a2 a3 c' a5 a6 a7
  | .mk p s m c l b a0 a1 a2 a3 a4 _ a6 a7, 5, c' => .mk p s m c l b a0 a1 a2 a3 a4 c' a6 a7
  | .mk p s m c l b a0 a1 a2 a3 a4 a5 _ a7, 6, c' => .mk p s m c l b a0 a1 a2 a3 a4 a5 c' a7
  | .mk p s m c l b a0 a1 a2 a3 a4 a5 a6 _, 7, c' => .mk p s m c l b a0 a1 a2 a3 a4 a5 a6 c'
  | n, _, _ => n

/-- Overwrite the aggregate fields, keeping geometry and children
(the assignments `node->totalMass = ...` etc. in `insertBody`). -/
def withMass : OctreeNode K → K → Vec3 K → OctreeNode K
  | .mk p s _ _ l b a0 a1 a2 a3 a4 a5 a6 a7, m, com => .mk p s m com l b a0 a1 a2 a3 a4 a5 a6 a7
  | .null, _, _ => .null

/-- Overwrite the occupant pointer (`node->body = ...`). -/
def withBody : OctreeNode K → Option (Body K) → OctreeNode K
  | .mk p s m c l _ a0 a1 a2 a3 a4 a5 a6 a7, b => .mk p s m c l b a0 a1 a2 a3 a4 a5 a6 a7
  | .null, _ => .null

/-- Overwrite the leaf flag (`node->isLeaf = ...`). -/
def withLeaf : OctreeNode K → Bool → OctreeNode K
  | .mk p s m c _ b a0 a1 a2 a3 a4 a5 a6 a7, l => .mk p s m c l b a0 a1 a2 a3 a4 a5 a6 a7
  | .null, _ => .null

end OctreeNode

/-- `createNode` from `src/Claude/orbitalSim.cpp`: a fresh empty leaf
with all eight children `NULL`. -/
def createNode {K : Type} [LinearOrderedField K] (position : Vec3 K) (size : K) : OctreeNode K :=
  .mk position size 0 ⟨0, 0, 0⟩ true none .null .null .null .null .null .null .null .null

/-- `getOctant` from `src/Claude/orbitalSim.cpp`: bit 0 for `x >= center.x`,
bit 1 for `y >= center.y`, bit 2 for `z >= center.z`. -/
def getOctant {K : Type} [LinearOrderedField K] (nodePos bodyPos : Vec3 K) : ℕ :=
  (if bodyPos.x ≥ nodePos.x then 1 else 0) +
  (if bodyPos.y ≥ nodePos.y then 2 else 0) +
  (if bodyPos.z ≥ nodePos.z then 4 else 0)

/-- `getOctantPosition` from `src/Claude/orbitalSim.cpp`: offset the parent
center by `±halfSize` along each axis according to the octant bits. -/
def getOctantPosition {K : Type} [LinearOrderedField K]
    (nodePos : Vec3 K) (octant : ℕ) (halfSize : K) : Vec3 K :=
  ⟨if octant &&& 1 ≠ 0 then nodePos.x + halfSize else nodePos.x - halfSize,
   if octant &&& 2 ≠ 0 then nodePos.y + halfSize else nodePos.y - halfSize,
   if octant &&& 4 ≠ 0 then nodePos.z + halfSize else nodePos.z - halfSize⟩

/-- The updated running-average center of mass computed at the top of
`insertBody` (the three `node->centerOfMass.* = ...` assignments). -/
def comUpdate {K : Type} [LinearOrderedField K] (node : OctreeNode K) (body : Body K) : Vec3 K :=
  let newTotalMass := node.totalMass + body.mass
  ⟨(node.centerOfMass.x * node.totalMass + body.position.x * body.mass) / newTotalMass,
   (node.centerOfMass.y * node.totalMass + body.position.y * body.mass) / newTotalMass,
   (node.centerOfMass.z * node.totalMass + body.position.z * body.mass) / newTotalMass⟩

/-- The child node used when inserting into octant `octant` of `n`:
the existing `children[octant]` if non-`NULL`, otherwise the fresh node
`createNode(getOctantPosition(node->position, octant, halfSize/2), halfSize)`
with `halfSize = node->size / 2` (both duplicated blocks of `insertBody`). -/
def childFor {K : Type} [LinearOrderedField K] (n : OctreeNode K) (octant : ℕ) : OctreeNode K :=
  match n.getChild octant with
  | .null => createNode (getOctantPosition n.position octant (n.size / 2 / 2)) (n.size / 2)
  | c => c

/-- `insertBody` from `src/Claude/orbitalSim.cpp`.  The C++ recursion runs
on the machine stack; here it runs on an explicit `fuel` argument, and
`none` models a call that never returns (or is handed a `NULL` node). -/
def insertBody {K : Type} [LinearOrderedField K] :
    ℕ → OctreeNode K → Body K → Option (OctreeNode K)
  | 0, _, _ => none
  | _ + 1, .null, _ => none
  | fuel + 1, node, body =>
    -- empty node: store the body as sole occupant
    if node.totalMass = 0 then
      some ((node.withMass body.mass body.position).withBody (some body))
    else
      -- update the aggregate mass and center of mass
      let n1 := node.withMass (node.totalMass + body.mass) (comUpdate node body)
      -- leaf with an occupant: subdivide and push the old occupant down
      let step1 : Option (OctreeNode K) :=
        if n1.isLeaf && n1.body.isSome then
          match n1.body with
          | some oldBody =>
            let n2 := (n1.withBody none).withLeaf false
            let octant := getOctant n2.position oldBody.position
            (insertBody fuel (childFor n2 octant) oldBody).map fun c' => n2.setChild octant c'
          | none => some n1
        else some n1
      -- route the new body into its octant (when the node is internal)
      step1.bind fun n3 =>
        if n3.isLeaf then some n3
        else
          let octant := getOctant n3.position body.position
          (insertBody fuel (childFor n3 octant) body).map fun c' => n3.setChild octant c'

/-- `buildOctree` from `src/Claude/orbitalSim.cpp`, taking the body list of
the simulation.  The C++ reads `bodies[0]` unconditionally, so the empty
list is outside the function's domain and maps to `none`. -/
def buildOctree {K : Type} [LinearOrderedField K]
    (fuel : ℕ) : List (Body K) → Option (OctreeNode K)
  | [] => none
  | b :: bs =>
    -- componentwise min/max of all body positions, seeded with bodies[0]
    let minv := bs.foldl
      (fun m bi => ⟨min m.x bi.position.x, min m.y bi.position.y, min m.z bi.position.z⟩)
      b.position
    let maxv := bs.foldl
      (fun m bi => ⟨max m.x bi.position.x, max m.y bi.position.y, max m.z bi.position.z⟩)
      b.position
    let center : Vec3 K :=
      ⟨(minv.x + maxv.x) / 2, (minv.y + maxv.y) / 2, (minv.z + maxv.z) / 2⟩
    -- largest axis extent, inflated by the 1.1 margin
    let size := max (max (maxv.x - minv.x) (maxv.y - minv.y)) (maxv.z - minv.z) * (11 / 10)
    let root := createNode center size
    (b :: bs).foldlM (fun n bi => insertBody fuel n bi) root
namespace OctreeNode

variable {K : Type} [LinearOrderedField K]

@[simp] theorem position_mk (p : Vec3 K) (s m com lf bd k0 k1 k2 k3 k4 k5 k6 k7) :
    (OctreeNode.mk p s m com lf bd k0 k1 k2 k3 k4 k5 k6 k7).position = p := rfl

@[simp] theorem size_mk (p : Vec3 K) (s m com lf bd k0 k1 k2 k3 k4 k5 k6 k7) :
    (OctreeNode.mk p s m com lf bd k0 k1 k2 k3 k4 k5 k6 k7).size = s := rfl

@[simp] theorem totalMass_mk (p : Vec3 K) (s m com lf bd k0 k1 k2 k3 k4 k5 k6 k7) :
    (OctreeNode.mk p s m com lf bd k0 k1 k2 k3 k4 k5 k6 k7).totalMass = m := rfl

@[simp] theorem centerOfMass_mk (p : Vec3 K) (s m com lf bd k0 k1 k2 k3 k4 k5 k6 k7) :
    (OctreeNode.mk p s m com lf bd k0 k1 k2 k3 k4 k5 k6 k7).centerOfMass = com := rfl

@[simp] theorem isLeaf_mk (p : Vec3 K) (s m com lf bd k0 k1 k2 k3 k4 k5 k6 k7) :
    (OctreeNode.mk p s m com lf bd k0 k1 k2 k3 k4 k5 k6 k7).isLeaf = lf := rfl

@[simp] theorem body_mk (p : Vec3 K) (s m com lf bd k0 k1 k2 k3 k4 k5 k6 k7) :
    (OctreeNode.mk p s m com lf bd k0 k1 k2 k3 k4 k5 k6 k7).body = bd := rfl

@[simp] theorem withMass_mk (p : Vec3 K) (s m com lf bd k0 k1 k2 k3 k4 k5 k6 k7) (m' com') :
    (OctreeNode.mk p s m com lf bd k0 k1 k2 k3 k4 k5 k6 k7).withMass m' com'
      = .mk p s m' com' lf bd k0 k1 k2 k3 k4 k5 k6 k7 := rfl

@[simp] theorem withBody_mk (p : Vec3 K) (s m com lf bd k0 k1 k2 k3 k4 k5 k6 k7) (bd') :
    (OctreeNode.mk p s m com lf bd k0 k1 k2 k3 k4 k5 k6 k7).withBody bd'
      = .mk p s m com lf bd' k0 k1 k2 k3 k4 k5 k6 k7 := rfl

@[simp] theorem withLeaf_mk (p : Vec3 K) (s m com lf bd k0 k1 k2 k3 k4 k5 k6 k7) (lf') :
    (OctreeNode.mk p s m com lf bd k0 k1 k2 k3 k4 k5 k6 k7).withLeaf lf'
      = .mk p s m com lf' bd k0 k1 k2 k3 k4 k5 k6 k7 := rfl

@[simp] theorem isLeaf_setChild (n : OctreeNode K) (i c) : (n.setChild i c).isLeaf = n.isLeaf := by
  unfold setChild; split <;> rfl

@[simp] theorem position_setChild (n : OctreeNode K) (i c) :
    (n.setChild i c).position = n.position := by
  unfold setChild; split <;> rfl

@[simp] theorem size_setChild (n : OctreeNode K) (i c) : (n.setChild i c).size = n.size := by
  unfold setChild; split <;> rfl

@[simp] theorem totalMass_setChild (n : OctreeNode K) (i c) :
    (n.setChild i c).totalMass = n.totalMass := by
  unfold setChild; split <;> rfl

@[simp] theorem centerOfMass_setChild (n : OctreeNode K) (i c) :
    (n.setChild i c).centerOfMass = n.centerOfMass := by
  unfold setChild; split <;> rfl

@[simp] theorem body_setChild (n : OctreeNode K) (i c) : (n.setChild i c).body = n.body := by
  unfold setChild; split <;> rfl

end OctreeNode

theorem insertBody_emptyCase {K : Type} [LinearOrderedField K]
    (fuel : ℕ) (p : Vec3 K) (s : K) (com : Vec3 K) (lf : Bool) (bd : Option (Body K))
    (k0 k1 k2 k3 k4 k5 k6 k7 : OctreeNode K) (b : Body K) :
    insertBody (fuel+1) (.mk p s 0 com lf bd k0 k1 k2 k3 k4 k5 k6 k7) b
      = some (.mk p s b.mass b.position lf (some b) k0 k1 k2 k3 k4 k5 k6 k7) := by
  simp [insertBody]

theorem insertBody_internalCase {K : Type} [LinearOrderedField K]
    (fuel : ℕ) (p : Vec3 K) (s m : K) (com : Vec3 K) (bd : Option (Body K))
    (k0 k1 k2 k3 k4 k5 k6 k7 : OctreeNode K) (b : Body K) (hm : m ≠ 0) :
    insertBody (fuel+1) (.mk p s m com false bd k0 k1 k2 k3 k4 k5 k6 k7) b
      = (insertBody fuel
           (childFor (.mk p s (m + b.mass)
              (comUpdate (.mk p s m com false bd k0 k1 k2 k3 k4 k5 k6 k7) b)
              false bd k0 k1 k2 k3 k4 k5 k6 k7) (getOctant p b.position)) b).map
          (fun c' => (OctreeNode.mk p s (m + b.mass)
              (comUpdate (.mk p s m com false bd k0 k1 k2 k3 k4 k5 k6 k7) b)
              false bd k0 k1 k2 k3 k4 k5 k6 k7).setChild (getOctant p b.position) c') := by
  simp [insertBody, hm, Option.bind]

theorem insertBody_leafCase {K : Type} [LinearOrderedField K]
    (fuel : ℕ) (p : Vec3 K) (s m : K) (com : Vec3 K) (ob : Body K)
    (k0 k1 k2 k3 k4 k5 k6 k7 : OctreeNode K) (b : Body K) (hm : m ≠ 0) :
    insertBody (fuel+1) (.mk p s m com true (some ob) k0 k1 k2 k3 k4 k5 k6 k7) b
      = (insertBody fuel
           (childFor (.mk p s (m + b.mass)
               (comUpdate (.mk p s m com true (some ob) k0 k1 k2 k3 k4 k5 k6 k7) b)
               false none k0 k1 k2 k3 k4 k5 k6 k7) (getOctant p ob.position)) ob).bind
          (fun c1 =>
            let n3 := (OctreeNode.mk p s (m + b.mass)
               (comUpdate (.mk p s m com true (some ob) k0 k1 k2 k3 k4 k5 k6 k7) b)
               false none k0 k1 k2 k3 k4 k5 k6 k7).setChild (getOctant p ob.position) c1
            (insertBody fuel (childFor n3 (getOctant p b.position)) b).map
              (fun c' => n3.setChild (getOctant p b.position) c')) := by
  simp [insertBody, hm, Option.map_eq_bind, Option.bind_assoc]
theorem insertBody_emptyEval {K : Type} [LinearOrderedField K]
    (fuel : ℕ) (p : Vec3 K) (s : K) (com : Vec3 K) (lf : Bool) (bd : Option (Body K))
    (k0 k1 k2 k3 k4 k5 k6 k7 : OctreeNode K) (b : Body K) (hf : 0 < fuel) :
    insertBody fuel (.mk p s 0 com lf bd k0 k1 k2 k3 k4 k5 k6 k7) b
      = some (.mk p s b.mass b.position lf (some b) k0 k1 k2 k3 k4 k5 k6 k7) := by
  obtain ⟨f, rfl⟩ := Nat.exists_eq_add_of_lt hf
  rw [Nat.zero_add]
  exact insertBody_emptyCase f p s com lf bd k0 k1 k2 k3 k4 k5 k6 k7 b

theorem insertBody_internalEval {K : Type} [LinearOrderedField K]
    (fuel : ℕ) (p : Vec3 K) (s m : K) (com : Vec3 K) (bd : Option (Body K))
    (k0 k1 k2 k3 k4 k5 k6 k7 : OctreeNode K) (b : Body K) (hm : m ≠ 0) (hf : 0 < fuel) :
    insertBody fuel (.mk p s m com false bd k0 k1 k2 k3 k4 k5 k6 k7) b
      = (insertBody (fuel - 1)
           (childFor (.mk p s (m + b.mass)
              (comUpdate (.mk p s m com false bd k0 k1 k2 k3 k4 k5 k6 k7) b)
              false bd k0 k1 k2 k3 k4 k5 k6 k7) (getOctant p b.position)) b).map
          (fun c' => (OctreeNode.mk p s (m + b.mass)
              (comUpdate (.mk p s m com false bd k0 k1 k2 k3 k4 k5 k6 k7) b)
              false bd k0 k1 k2 k3 k4 k5 k6 k7).setChild (getOctant p b.position) c') := by
  obtain ⟨f, rfl⟩ := Nat.exists_eq_add_of_lt hf
  rw [Nat.zero_add, Nat.add_sub_cancel]
  exact insertBody_internalCase f p s m com bd k0 k1 k2 k3 k4 k5 k6 k7 b hm

theorem insertBody_leafEval {K : Type} [LinearOrderedField K]
    (fuel : ℕ) (p : Vec3 K) (s m : K) (com : Vec3 K) (ob : Body K)
    (k0 k1 k2 k3 k4 k5 k6 k7 : OctreeNode K) (b : Body K) (hm : m ≠ 0) (hf : 0 < fuel) :
    insertBody fuel (.mk p s m com true (some ob) k0 k1 k2 k3 k4 k5 k6 k7) b
      = (insertBody (fuel - 1)
           (childFor (.mk p s (m + b.mass)
               (comUpdate (.mk p s m com true (some ob) k0 k1 k2 k3 k4 k5 k6 k7) b)
               false none k0 k1 k2 k3 k4 k5 k6 k7) (getOctant p ob.position)) ob).bind
          (fun c1 =>
            let n3 := (OctreeNode.mk p s (m + b.mass)
               (comUpdate (.mk p s m com true (some ob) k0 k1 k2 k3 k4 k5 k6 k7) b)
               false none k0 k1 k2 k3 k4 k5 k6 k7).setChild (getOctant p ob.position) c1
            (insertBody (fuel - 1) (childFor n3 (getOctant p b.position)) b).map
              (fun c' => n3.setChild (getOctant p b.position) c')) := by
  obtain ⟨f, rfl⟩ := Nat.exists_eq_add_of_lt hf
  rw [Nat.zero_add, Nat.add_sub_cancel]
  exact insertBody_leafCase f p s m com ob k0 k1 k2 k3 k4 k5 k6 k7 b hm


theorem insertBody_leafNoBodyCase {K : Type} [LinearOrderedField K]
    (fuel : ℕ) (p : Vec3 K) (s m : K) (com : Vec3 K)
    (k0 k1 k2 k3 k4 k5 k6 k7 : OctreeNode K) (b : Body K) (hm : m ≠ 0) :
    insertBody (fuel+1) (.mk p s m com true none k0 k1 k2 k3 k4 k5 k6 k7) b
      = some (.mk p s (m + b.mass)
          (comUpdate (.mk p s m com true none k0 k1 k2 k3 k4 k5 k6 k7) b)
          true none k0 k1 k2 k3 k4 k5 k6 k7) := by
  simp [insertBody, hm]

/-- One successful insertion adds exactly the inserted body's mass to the
node's `totalMass` and maintains the weighted center-of-mass identity. -/
theorem insertBody_mass_com {K : Type} [LinearOrderedField K]
    (fuel : ℕ) (n n' : OctreeNode K) (b : Body K)
    (hM : n.totalMass + b.mass ≠ 0)
    (h : insertBody fuel n b = some n') :
    n'.totalMass = n.totalMass + b.mass ∧
    n'.centerOfMass.x * n'.totalMass
      = n.centerOfMass.x * n.totalMass + b.position.x * b.mass ∧
    n'.centerOfMass.y * n'.totalMass
      = n.centerOfMass.y * n.totalMass + b.position.y * b.mass ∧
    n'.centerOfMass.z * n'.totalMass
      = n.centerOfMass.z * n.totalMass + b.position.z * b.mass := by
  rcases fuel with _ | fuel
  · simp [insertBody] at h
  rcases n with _ | ⟨p, s, m, com, lf, bd, k0, k1, k2, k3, k4, k5, k6, k7⟩
  · simp [insertBody] at h
  by_cases hm : m = 0
  · subst hm
    rw [insertBody_emptyCase] at h
    obtain rfl := Option.some_injective _ h
    simp
  · simp only [OctreeNode.totalMass_mk] at hM
    rcases lf with _ | _
    · rw [insertBody_internalCase fuel p s m com bd k0 k1 k2 k3 k4 k5 k6 k7 b hm] at h
      obtain ⟨c2, hc2, h3⟩ := Option.map_eq_some'.mp h
      obtain rfl := h3.symm
      simp [comUpdate]
      refine ⟨by field_simp, by field_simp, by field_simp⟩
    · rcases bd with _ | ob
      · rw [insertBody_leafNoBodyCase fuel p s m com k0 k1 k2 k3 k4 k5 k6 k7 b hm] at h
        obtain rfl := Option.some_injective _ h
        simp [comUpdate]
        refine ⟨by field_simp, by field_simp, by field_simp⟩
      · rw [insertBody_leafCase fuel p s m com ob k0 k1 k2 k3 k4 k5 k6 k7 b hm] at h
        obtain ⟨c1, hc1, h2⟩ := Option.bind_eq_some.mp h
        simp only [] at h2
        obtain ⟨c2, hc2, h3⟩ := Option.map_eq_some'.mp h2
        obtain rfl := h3.symm
        simp [comUpdate]
        refine ⟨by field_simp, by field_simp, by field_simp⟩

/-- Folding successful insertions over a body list accumulates the masses
and the mass-weighted position sums. -/
theorem foldInsert_mass_com {K : Type} [LinearOrderedField K] (fuel : ℕ) (bs : List (Body K)) :
    ∀ (n root : OctreeNode K), (∀ b ∈ bs, 0 < b.mass) → 0 ≤ n.totalMass →
    bs.foldlM (fun t bi => insertBody fuel t bi) n = some root →
    root.totalMass = n.totalMass + (bs.map Body.mass).sum ∧
    root.centerOfMass.x * root.totalMass
      = n.centerOfMass.x * n.totalMass + (bs.map (fun b => b.position.x * b.mass)).sum ∧
    root.centerOfMass.y * root.totalMass
      = n.centerOfMass.y * n.totalMass + (bs.map (fun b => b.position.y * b.mass)).sum ∧
    root.centerOfMass.z * root.totalMass
      = n.centerOfMass.z * n.totalMass + (bs.map (fun b => b.position.z * b.mass)).sum := by
  induction bs with
  | nil =>
    intro n root _ _ h
    simp only [List.foldlM_nil, pure, Option.some_injective _ |>.eq_iff] at h
    obtain rfl := h.symm
    simp
  | cons b bs ih =>
    intro n root hpos hnn h
    rw [List.foldlM_cons] at h
    obtain ⟨n1, h1, h2⟩ := Option.bind_eq_some.mp h
    have hbm : 0 < b.mass := hpos b (List.mem_cons_self b bs)
    have hM : n.totalMass + b.mass ≠ 0 := by positivity
    obtain ⟨e1, ex, ey, ez⟩ := insertBody_mass_com fuel n n1 b hM h1
    have hn1 : 0 ≤ n1.totalMass := by rw [e1]; positivity
    obtain ⟨f1, fx, fy, fz⟩ := ih n1 root (fun bi hbi => hpos bi (List.mem_cons_of_mem b hbi)) hn1 h2
    refine ⟨by rw [f1, e1]; simp [add_assoc], ?_, ?_, ?_⟩
    · rw [fx, ex]; simp; ring
    · rw [fy, ey]; simp; ring
    · rw [fz, ez]; simp; ring

/-- **C2.** For every collection of bodies with positive masses, after
`build(bodies)` completes, the root octree node's `totalMass` equals the sum
of all body masses (each insertion adds the inserted body's mass to the
`totalMass` of every node on the root-to-leaf insertion path). -/
theorem buildOctree_totalMass_eq_sum {K : Type} [LinearOrderedField K]
    (fuel : ℕ) (bodies : List (Body K)) (root : OctreeNode K)
    (hpos : ∀ b ∈ bodies, 0 < b.mass)
    (h : buildOctree fuel bodies = some root) :
    root.totalMass = (bodies.map Body.mass).sum := by
  match bodies with
  | [] => simp [buildOctree] at h
  | b :: bs =>
    simp only [buildOctree] at h
    obtain ⟨e, -, -, -⟩ := foldInsert_mass_com fuel (b :: bs) _ root hpos (by simp [createNode]) h
    simpa [createNode] using e

def wBodyA : Body ℚ := ⟨none, 1, 1, 0, ⟨0, 0, 0⟩, ⟨0, 0, 0⟩⟩

def wBodyB : Body ℚ := ⟨none, 3, 1, 0, ⟨4, 0, 0⟩, ⟨0, 0, 0⟩⟩

def wLeafA : OctreeNode ℚ :=
  .mk ⟨9/10, 11/10, 11/10⟩ (11/5) 1 ⟨0, 0, 0⟩ true (some wBodyA)
    .null .null .null .null .null .null .null .null

def wLeafB : OctreeNode ℚ :=
  .mk ⟨31/10, 11/10, 11/10⟩ (11/5) 3 ⟨4, 0, 0⟩ true (some wBodyB)
    .null .null .null .null .null .null .null .null

def wRoot : OctreeNode ℚ :=
  .mk ⟨2, 0, 0⟩ (22/5) 4 ⟨3, 0, 0⟩ false none
    .null .null .null .null .null .null wLeafA wLeafB

set_option maxHeartbeats 1600000 in
/-- Concrete evaluation of `buildOctree` on the two-body example of the spec
(masses 1 and 3 at `(0,0,0)` and `(4,0,0)`). -/
theorem wRoot_build : buildOctree 3 [wBodyA, wBodyB] = some wRoot := by
  norm_num [buildOctree, wBodyA, wBodyB, wRoot, wLeafA, wLeafB, createNode,
    insertBody_emptyEval, insertBody_leafEval, insertBody_internalEval,
    childFor, getOctant, getOctantPosition, comUpdate,
    OctreeNode.getChild, OctreeNode.setChild]
  decide

/-- Witness for C2 at the two-body example: positive masses, the build
completes, and the theorem instantiates. -/
theorem buildOctree_totalMass_eq_sum_witness :
    ((∀ b ∈ [wBodyA, wBodyB], 0 < b.mass) ∧ buildOctree 3 [wBodyA, wBodyB] = some wRoot) ∧
      wRoot.totalMass = ([wBodyA, wBodyB].map Body.mass).sum :=
  ⟨⟨by norm_num [wBodyA, wBodyB], wRoot_build⟩,
    buildOctree_totalMass_eq_sum 3 [wBodyA, wBodyB] wRoot
      (by norm_num [wBodyA, wBodyB]) wRoot_build⟩

/-- `getOctant` always returns an index in `0..7`. -/
theorem getOctant_lt_8 {K : Type} [LinearOrderedField K] (nodePos bodyPos : Vec3 K) :
    getOctant nodePos bodyPos < 8 := by
  unfold getOctant
  split_ifs <;> norm_num

/-- All-`NULL` children read back as `NULL` at every index. -/
theorem getChild_allNull {K : Type} [LinearOrderedField K]
    (p : Vec3 K) (s m : K) (com : Vec3 K) (lf : Bool) (bd : Option (Body K)) (i : ℕ) :
    (OctreeNode.mk p s m com lf bd .null .null .null .null .null .null .null .null).getChild i
      = .null := by
  rcases i with _|_|_|_|_|_|_|_|i <;> rfl

/-- Reading back the child slot just written. -/
theorem getChild_setChild_same {K : Type} [LinearOrderedField K]
    (p : Vec3 K) (s m : K) (com : Vec3 K) (lf : Bool) (bd : Option (Body K))
    (k0 k1 k2 k3 k4 k5 k6 k7 : OctreeNode K) (i : ℕ) (c : OctreeNode K) (hi : i < 8) :
    ((OctreeNode.mk p s m com lf bd k0 k1 k2 k3 k4 k5 k6 k7).setChild i c).getChild i = c := by
  interval_cases i <;> rfl

/-- Inserting a body into a leaf whose single occupant sits at the same
position never returns: both bodies fall into the same octant at every
depth, so the recursion consumes any amount of fuel. -/
theorem insertBody_coincident_none {K : Type} [LinearOrderedField K] :
    ∀ (fuel : ℕ) (p : Vec3 K) (s m : K) (com : Vec3 K) (ob b : Body K),
    m ≠ 0 → ob.mass ≠ 0 → ob.position = b.position →
    insertBody fuel
      (.mk p s m com true (some ob) .null .null .null .null .null .null .null .null) b = none := by
  intro fuel
  induction fuel with
  | zero => intro p s m com ob b hm hob hpos; simp [insertBody]
  | succ fuel ih =>
    intro p s m com ob b hm hob hpos
    rw [insertBody_leafCase fuel p s m com ob _ _ _ _ _ _ _ _ b hm]
    rcases fuel with _ | f
    · simp [insertBody]
    · simp only [childFor, getChild_allNull, createNode]
      rw [insertBody_emptyCase f]
      simp only [Option.some_bind]
      rw [hpos, getChild_setChild_same _ _ _ _ _ _ _ _ _ _ _ _ _ _ _ _
        (getOctant_lt_8 p b.position)]
      rw [ih _ _ _ _ ob b hob hob hpos]
      simp

/-- The coincident failing input for octree insertion: an asteroid-sized
body at the origin, inserted twice. -/
def cBody : Body ℚ := ⟨none, 1, 1, 0, ⟨0, 0, 0⟩, ⟨0, 0, 0⟩⟩

/-- **C7.** The claim asserts octree insertion terminates for every finite
body collection, coincident positions included, via a depth cap or merge.
The code has no such cap: building over two bodies at the same position
exhausts every finite fuel (the C++ recurses until stack overflow). -/
theorem buildOctree_coincident_never_terminates :
    ∀ fuel : ℕ, buildOctree fuel [cBody, cBody] = none := by
  intro fuel
  rcases fuel with _ | f
  · norm_num [buildOctree, insertBody, cBody]
  · norm_num [buildOctree, cBody, createNode, insertBody_emptyEval,
      insertBody_coincident_none]

/-! ## Force evaluation (Barnes–Hut traversal), over `ℝ`

`calculateAcceleration` needs `sqrtf`, so this layer is fixed at `ℝ`
with `Real.sqrt`. -/

/-- `GRAVITATIONAL_CONSTANT` (6.6743E-11). -/
noncomputable def GRAVITATIONAL_CONSTANT : ℝ := 6.6743e-11

/-- The `1e-6f` self-interaction guard in `calculateAcceleration`. -/
noncomputable def BH_EPSILON : ℝ := 1e-6

/-- raymath `Vector3Length`. -/
noncomputable def Vector3Length (v : Vec3 ℝ) : ℝ :=
  Real.sqrt (v.x * v.x + v.y * v.y + v.z * v.z)

/-- raymath `Vector3Normalize` (a zero-length vector is returned unchanged). -/
noncomputable def Vector3Normalize (v : Vec3 ℝ) : Vec3 ℝ :=
  if Vector3Length v = 0 then v else vscale v (1 / Vector3Length v)

/-- `calculateAcceleration` from `src/Claude/orbitalSim.cpp`.  The C++
accumulates into `*acceleration`; here the accumulator is the last argument
and the updated accumulator is returned.  The `children[i] != NULL` check of
the loop is absorbed into the `null` case, which leaves the accumulator
unchanged exactly as skipping the call does. -/
noncomputable def calculateAcceleration : OctreeNode ℝ → Vec3 ℝ → ℝ → Vec3 ℝ → Vec3 ℝ
  | .null, _, _, acc => acc
  | .mk _ size m com lf _ k0 k1 k2 k3 k4 k5 k6 k7, bodyPos, theta, acc =>
    -- empty node: no force
    if m = 0 then acc
    else
      let distanceVec := vsub com bodyPos
      let distance := Vector3Length distanceVec
      -- avoid self-interaction and division by zero
      if distance < BH_EPSILON then acc
      else if lf = true ∨ size / distance < theta then
        -- treat the node as a single particle
        vadd acc (vscale (Vector3Normalize distanceVec)
          (GRAVITATIONAL_CONSTANT * m / (distance * distance)))
      else
        -- recurse into the children
        let a0 := calculateAcceleration k0 bodyPos theta acc
        let a1 := calculateAcceleration k1 bodyPos theta a0
        let a2 := calculateAcceleration k2 bodyPos theta a1
        let a3 := calculateAcceleration k3 bodyPos theta a2
        let a4 := calculateAcceleration k4 bodyPos theta a3
        let a5 := calculateAcceleration k5 bodyPos theta a4
        let a6 := calculateAcceleration k6 bodyPos theta a5
        calculateAcceleration k7 bodyPos theta a6

/-- The eight child slots in loop order. -/
def childrenList {K : Type} [LinearOrderedField K] : OctreeNode K → List (OctreeNode K)
  | .null => []
  | .mk _ _ _ _ _ _ k0 k1 k2 k3 k4 k5 k6 k7 => [k0, k1, k2, k3, k4, k5, k6, k7]

/-- `NULL`-pointer test. -/
def OctreeNode.isNull {K : Type} [LinearOrderedField K] : OctreeNode K → Bool
  | .null => true
  | _ => false

/-- The non-`NULL` children, in loop order. -/
def nonNullChildren {K : Type} [LinearOrderedField K] (n : OctreeNode K) : List (OctreeNode K) :=
  (childrenList n).filter (fun c => !c.isNull)

/-- The accumulator is only ever added to: running the traversal from `acc`
equals `acc` plus the traversal from zero. -/
theorem calculateAcceleration_accum (t : OctreeNode ℝ) :
    ∀ (bodyPos : Vec3 ℝ) (theta : ℝ) (acc : Vec3 ℝ),
    calculateAcceleration t bodyPos theta acc
      = vadd acc (calculateAcceleration t bodyPos theta vzero) := by
  induction t with
  | null => intro bodyPos theta acc; simp [calculateAcceleration, vadd, vzero]
  | mk p s m com lf bd k0 k1 k2 k3 k4 k5 k6 k7 ih0 ih1 ih2 ih3 ih4 ih5 ih6 ih7 =>
    intro bodyPos theta acc
    by_cases hm : m = 0
    · simp [calculateAcceleration, hm, vadd, vzero]
    · by_cases hd : Vector3Length (vsub com bodyPos) < BH_EPSILON
      · simp [calculateAcceleration, hm, hd, vadd, vzero]
      · by_cases ho : lf = true ∨ s / Vector3Length (vsub com bodyPos) < theta
        · simp only [calculateAcceleration, if_neg hm, if_neg hd, if_pos ho]
          ext <;> simp [vadd, vzero] <;> ring
        · simp only [calculateAcceleration, if_neg hm, if_neg hd, if_neg ho]
          rw [ih0, ih1, ih2, ih3, ih4, ih5, ih6, ih7]
          conv_rhs => rw [ih1, ih2, ih3, ih4, ih5, ih6, ih7]
          ext <;> simp [vadd, vzero] <;> ring

@[simp] theorem OctreeNode.isNull_null {K : Type} [LinearOrderedField K] :
    (OctreeNode.null : OctreeNode K).isNull = true := rfl

@[simp] theorem OctreeNode.isNull_mk {K : Type} [LinearOrderedField K]
    (p : Vec3 K) (s m com lf bd k0 k1 k2 k3 k4 k5 k6 k7) :
    (OctreeNode.mk p s m com lf bd k0 k1 k2 k3 k4 k5 k6 k7).isNull = false := rfl

/-- Sum over the non-`NULL` children equals the sum over all eight slots
when the summand vanishes on `NULL`. -/
theorem sum_filter_nonNull (l : List (OctreeNode ℝ)) (f : OctreeNode ℝ → Vec3 ℝ)
    (h0 : f .null = vzero) :
    ((l.filter (fun c => !c.isNull)).map f).sum = (l.map f).sum := by
  have h0' : f .null = 0 := h0
  induction l with
  | nil => rfl
  | cons c l ih =>
    cases c with
    | null =>
      simp only [List.filter_cons, OctreeNode.isNull_null, Bool.not_true, List.map_cons,
        List.sum_cons, ih, h0', Bool.false_eq_true, if_false, zero_add]
    | mk p s m com lf bd k0 k1 k2 k3 k4 k5 k6 k7 =>
      simp only [List.filter_cons, OctreeNode.isNull_mk, Bool.not_false, List.map_cons,
        List.sum_cons, ih, if_true]

/-- **C1.** For every octree node visited during force evaluation with
`totalMass ≠ 0` and distance from the body to the node's `centerOfMass` at
least epsilon, the node is treated as a single point mass exactly when it is
a leaf or `node.size / distance < theta`, in which case its contribution is
`G * totalMass / distance^2` along the unit vector from the body toward
`centerOfMass`; otherwise the result is the sum of the contributions of all
non-`NULL` children. -/
theorem calculateAcceleration_opening_criterion
    (node : OctreeNode ℝ) (bodyPos : Vec3 ℝ) (theta : ℝ) (acc : Vec3 ℝ)
    (hm : node.totalMass ≠ 0)
    (hd : BH_EPSILON ≤ Vector3Length (vsub node.centerOfMass bodyPos)) :
    calculateAcceleration node bodyPos theta acc =
      if node.isLeaf = true ∨ node.size / Vector3Length (vsub node.centerOfMass bodyPos) < theta
      then vadd acc (vscale
          (vscale (vsub node.centerOfMass bodyPos)
            (1 / Vector3Length (vsub node.centerOfMass bodyPos)))
          (GRAVITATIONAL_CONSTANT * node.totalMass
            / Vector3Length (vsub node.centerOfMass bodyPos) ^ 2))
      else vadd acc ((nonNullChildren node).map
          (fun c => calculateAcceleration c bodyPos theta vzero)).sum := by
  rcases node with _ | ⟨p, s, m, com, lf, bd, k0, k1, k2, k3, k4, k5, k6, k7⟩
  · exact absurd rfl hm
  simp only [OctreeNode.totalMass_mk, OctreeNode.centerOfMass_mk, OctreeNode.isLeaf_mk,
    OctreeNode.size_mk] at hm hd ⊢
  have heps : (0:ℝ) < BH_EPSILON := by norm_num [BH_EPSILON]
  have hlen : Vector3Length (vsub com bodyPos) ≠ 0 := by
    intro h0; rw [h0] at hd; exact absurd (lt_of_lt_of_le heps hd) (lt_irrefl 0)
  have hnlt : ¬ Vector3Length (vsub com bodyPos) < BH_EPSILON := not_lt.mpr hd
  by_cases ho : lf = true ∨ s / Vector3Length (vsub com bodyPos) < theta
  · simp only [calculateAcceleration, if_neg hm, if_neg hnlt, if_pos ho]
    rw [Vector3Normalize, if_neg hlen, sq]
  · simp only [calculateAcceleration, if_neg hm, if_neg hnlt, if_neg ho]
    rw [calculateAcceleration_accum k1, calculateAcceleration_accum k2,
      calculateAcceleration_accum k3, calculateAcceleration_accum k4,
      calculateAcceleration_accum k5, calculateAcceleration_accum k6,
      calculateAcceleration_accum k7, calculateAcceleration_accum k0]
    simp only [nonNullChildren]
    rw [sum_filter_nonNull _ _ (by simp [calculateAcceleration])]
    simp only [childrenList, List.map_cons, List.map_nil, List.sum_cons, List.sum_nil]
    ext <;> simp [vadd, vzero, Vec3.add_def, Vec3.zero_def] <;> ring

/-- The concrete leaf node used in the C1 witness. -/
noncomputable def c1Node : OctreeNode ℝ :=
  .mk ⟨0, 0, 0⟩ 1 5 ⟨4, 0, 0⟩ true none .null .null .null .null .null .null .null .null

/-- Length of the witness displacement `(4,0,0)` is 4. -/
theorem c1_length : Vector3Length (vsub (⟨4,0,0⟩ : Vec3 ℝ) ⟨0,0,0⟩) = 4 := by
  have h : ((4:ℝ) - 0) * (4 - 0) + (0 - 0) * (0 - 0) + (0 - 0) * (0 - 0) = 4 ^ 2 := by norm_num
  rw [Vector3Length, vsub]
  simp only []
  rw [h, Real.sqrt_sq (by norm_num : (0:ℝ) ≤ 4)]

/-- Witness for C1: a leaf of mass 5 with center of mass at distance 4 from
the evaluated position, instantiating the theorem. -/
theorem calculateAcceleration_opening_criterion_witness :
    (c1Node.totalMass ≠ 0 ∧
      BH_EPSILON ≤ Vector3Length (vsub c1Node.centerOfMass ⟨0,0,0⟩)) ∧
    calculateAcceleration c1Node ⟨0,0,0⟩ (1/2) vzero =
      (if c1Node.isLeaf = true ∨
          c1Node.size / Vector3Length (vsub c1Node.centerOfMass ⟨0,0,0⟩) < (1/2)
       then vadd vzero (vscale
          (vscale (vsub c1Node.centerOfMass ⟨0,0,0⟩)
            (1 / Vector3Length (vsub c1Node.centerOfMass ⟨0,0,0⟩)))
          (GRAVITATIONAL_CONSTANT * c1Node.totalMass
            / Vector3Length (vsub c1Node.centerOfMass ⟨0,0,0⟩) ^ 2))
       else vadd vzero ((nonNullChildren c1Node).map
          (fun c => calculateAcceleration c ⟨0,0,0⟩ (1/2) vzero)).sum) := by
  have h1 : c1Node.totalMass ≠ 0 := by norm_num [c1Node]
  have h2 : BH_EPSILON ≤ Vector3Length (vsub c1Node.centerOfMass ⟨0,0,0⟩) := by
    show BH_EPSILON ≤ Vector3Length (vsub (⟨4,0,0⟩ : Vec3 ℝ) ⟨0,0,0⟩)
    rw [c1_length]; norm_num [BH_EPSILON]
  exact ⟨⟨h1, h2⟩, calculateAcceleration_opening_criterion c1Node ⟨0,0,0⟩ (1/2) vzero h1 h2⟩

/-- The displacement from a point to itself has length 0. -/
theorem Vector3Length_vsub_self (v : Vec3 ℝ) : Vector3Length (vsub v v) = 0 := by
  simp [Vector3Length, vsub]

/-- Any node whose center of mass lies within epsilon of the evaluated
position contributes nothing (the `distance < 1e-6f` guard). -/
theorem calculateAcceleration_close_zero (node : OctreeNode ℝ) (bodyPos : Vec3 ℝ)
    (theta : ℝ) (acc : Vec3 ℝ)
    (hd : Vector3Length (vsub node.centerOfMass bodyPos) < BH_EPSILON) :
    calculateAcceleration node bodyPos theta acc = acc := by
  rcases node with _ | ⟨p, s, m, com, lf, bd, k0, k1, k2, k3, k4, k5, k6, k7⟩
  · rfl
  · by_cases hm : m = 0
    · simp [calculateAcceleration, hm]
    · simp only [OctreeNode.centerOfMass_mk] at hd
      simp [calculateAcceleration, hm, hd]

/-- **C5.** A node whose center of mass is within epsilon of the body
contributes exactly zero acceleration (clamped, no error); consequently a
single-body simulation computes acceleration `(0,0,0)` for its body on
every step (the body's own tree is one leaf at its own position). -/
theorem calculateAcceleration_self_zero :
    (∀ (node : OctreeNode ℝ) (bodyPos : Vec3 ℝ) (theta : ℝ) (acc : Vec3 ℝ),
      Vector3Length (vsub node.centerOfMass bodyPos) < BH_EPSILON →
      calculateAcceleration node bodyPos theta acc = acc) ∧
    (∀ (b : Body ℝ) (fuel : ℕ) (theta : ℝ) (root : OctreeNode ℝ),
      buildOctree fuel [b] = some root →
      calculateAcceleration root b.position theta vzero = vzero) := by
  refine ⟨calculateAcceleration_close_zero, ?_⟩
  intro b fuel theta root h
  rcases fuel with _ | f
  · simp [buildOctree, insertBody] at h
  · simp only [buildOctree, List.foldlM_cons, List.foldlM_nil, createNode] at h
    rw [insertBody_emptyCase f] at h
    simp only [Option.bind_eq_bind, Option.some_bind, Option.pure_def,
      Option.some.injEq] at h
    obtain rfl := h.symm
    apply calculateAcceleration_close_zero
    simp only [OctreeNode.centerOfMass_mk]
    rw [Vector3Length_vsub_self]
    norm_num [BH_EPSILON]

/-- The near node of the C5 witness: center of mass at the evaluated point. -/
noncomputable def c5NearNode : OctreeNode ℝ :=
  .mk ⟨0, 0, 0⟩ 1 5 ⟨0, 0, 0⟩ true none .null .null .null .null .null .null .null .null

/-- The single body of the C5 witness. -/
noncomputable def c5Body : Body ℝ := ⟨none, 7, 2, 0, ⟨1, 2, 3⟩, ⟨0, 0, 0⟩⟩

/-- The one-leaf tree built from the single C5 body. -/
noncomputable def c5Root : OctreeNode ℝ :=
  .mk ⟨1, 2, 3⟩ 0 7 ⟨1, 2, 3⟩ true (some c5Body) .null .null .null .null .null .null .null .null

/-- Witness for C5: the epsilon clamp at a coincident node, and the
single-body build with zero resulting acceleration. -/
theorem calculateAcceleration_self_zero_witness :
    (Vector3Length (vsub c5NearNode.centerOfMass ⟨0, 0, 0⟩) < BH_EPSILON ∧
      calculateAcceleration c5NearNode ⟨0, 0, 0⟩ (1/2) ⟨1, 1, 1⟩ = ⟨1, 1, 1⟩) ∧
    (buildOctree 1 [c5Body] = some c5Root ∧
      calculateAcceleration c5Root c5Body.position (1/2) vzero = vzero) := by
  have hd : Vector3Length (vsub c5NearNode.centerOfMass ⟨0, 0, 0⟩) < BH_EPSILON := by
    show Vector3Length (vsub (⟨0,0,0⟩ : Vec3 ℝ) ⟨0,0,0⟩) < BH_EPSILON
    rw [Vector3Length_vsub_self]; norm_num [BH_EPSILON]
  have hb : buildOctree 1 [c5Body] = some c5Root := by
    simp only [buildOctree, List.foldlM_cons, List.foldlM_nil, createNode]
    rw [insertBody_emptyCase 0]
    norm_num [c5Body, c5Root]
  exact ⟨⟨hd, calculateAcceleration_self_zero.1 c5NearNode ⟨0,0,0⟩ (1/2) ⟨1,1,1⟩ hd⟩,
    ⟨hb, calculateAcceleration_self_zero.2 c5Body 1 (1/2) c5Root hb⟩⟩

/-! ## Simulation stepping (Barnes–Hut variant) -/

/-- `OrbitalSim` of the Barnes–Hut variant's header: `bodyCount` and the
`bodies` array are embedded as one list. -/
structure OrbitalSim where
  timeStep : ℝ
  time : ℝ
  theta : ℝ
  bodies : List (Body ℝ)

/-- `updateOrbitalSim` from `src/Claude/orbitalSim.cpp`.  A `NULL`
simulation pointer is `none`.  The guard returns unchanged on `NULL` or an
empty body collection; otherwise: build the octree, compute all
accelerations from start-of-step positions (PASO 1), sweep velocities
(PASO 2), sweep positions with the updated velocities (PASO 3), advance
time.  A build that never returns propagates as `none`. -/
noncomputable def updateOrbitalSim (fuel : ℕ) : Option OrbitalSim → Option OrbitalSim
  | none => none
  | some sim =>
    if sim.bodies.length = 0 then some sim
    else
      match buildOctree fuel sim.bodies with
      | none => none
      | some root =>
        let accelerations := sim.bodies.map
          (fun b => calculateAcceleration root b.position sim.theta vzero)
        let bodies1 := (sim.bodies.zip accelerations).map
          (fun pa => { pa.1 with velocity := vadd pa.1.velocity (vscale pa.2 sim.timeStep) })
        let bodies2 := bodies1.map
          (fun b => { b with position := vadd b.position (vscale b.velocity sim.timeStep) })
        some { sim with bodies := bodies2, time := sim.time + sim.timeStep }

/-- Zipping a list with its own image is mapping to pairs. -/
theorem zip_self_map {α β : Type} (l : List α) (f : α → β) :
    l.zip (l.map f) = l.map (fun a => (a, f a)) := by
  induction l with
  | nil => rfl
  | cons a l ih => simp [List.zip_cons_cons, ih]

/-- **C4.** One step updates every body's velocity by
`velocity += acceleration * timeStep` with accelerations computed from
start-of-step positions, and only then every body's position by
`position += velocity * timeStep` with the already-updated velocity.  The
result is a per-body map over the initial bodies, so it is the same for
every execution order of the bodies, and no position update can influence
the velocity sweep. -/
theorem updateOrbitalSim_semi_implicit_euler (fuel : ℕ) (sim : OrbitalSim)
    (root : OctreeNode ℝ)
    (hne : sim.bodies ≠ [])
    (hroot : buildOctree fuel sim.bodies = some root) :
    updateOrbitalSim fuel (some sim) = some
      { sim with
        time := sim.time + sim.timeStep,
        bodies := sim.bodies.map (fun b =>
          let a := calculateAcceleration root b.position sim.theta vzero
          let v1 := vadd b.velocity (vscale a sim.timeStep)
          { b with velocity := v1, position := vadd b.position (vscale v1 sim.timeStep) }) } := by
  have hlen : ¬ sim.bodies.length = 0 := by simpa using hne
  simp only [updateOrbitalSim, if_neg hlen, hroot]
  rw [zip_self_map, List.map_map, List.map_map]
  rfl

/-- **C10.** One step changes only positions, velocities and the elapsed
time: every body's `name`, `mass`, `radius` and `color`, the body count,
the `timeStep` and `theta` are unchanged. -/
theorem updateOrbitalSim_frame (fuel : ℕ) (sim sim' : OrbitalSim)
    (hne : sim.bodies ≠ [])
    (h : updateOrbitalSim fuel (some sim) = some sim') :
    sim'.timeStep = sim.timeStep ∧ sim'.theta = sim.theta ∧
    sim'.bodies.length = sim.bodies.length ∧
    List.Forall₂ (fun b b' =>
      b'.name = b.name ∧ b'.mass = b.mass ∧ b'.radius = b.radius ∧ b'.color = b.color)
      sim.bodies sim'.bodies := by
  have hlen : ¬ sim.bodies.length = 0 := by simpa using hne
  simp only [updateOrbitalSim, if_neg hlen] at h
  rcases hb : buildOctree fuel sim.bodies with _ | root
  · rw [hb] at h; simp at h
  · rw [hb] at h
    simp only [Option.some.injEq] at h
    obtain rfl := h.symm
    refine ⟨rfl, rfl, by simp, ?_⟩
    rw [zip_self_map, List.map_map, List.map_map]
    rw [List.forall₂_map_right_iff]
    rw [List.forall₂_same]
    intro b hbmem
    exact ⟨rfl, rfl, rfl, rfl⟩

/-- The single-body simulation used by the stepping witnesses. -/
noncomputable def c4Sim : OrbitalSim := ⟨2, 10, 1/2, [c5Body]⟩

/-- Shared build equation for the single-body simulation. -/
theorem c5Root_build : buildOctree 1 [c5Body] = some c5Root := by
  simp only [buildOctree, List.foldlM_cons, List.foldlM_nil, createNode]
  rw [insertBody_emptyCase 0]
  norm_num [c5Body, c5Root]

/-- Witness for C4: one step of the single-body simulation, with the build
completing, instantiates the two-sweep characterization. -/
theorem updateOrbitalSim_semi_implicit_euler_witness :
    (c4Sim.bodies ≠ [] ∧ buildOctree 1 c4Sim.bodies = some c5Root) ∧
    updateOrbitalSim 1 (some c4Sim) = some
      { c4Sim with
        time := c4Sim.time + c4Sim.timeStep,
        bodies := c4Sim.bodies.map (fun b =>
          let a := calculateAcceleration c5Root b.position c4Sim.theta vzero
          let v1 := vadd b.velocity (vscale a c4Sim.timeStep)
          { b with velocity := v1,
                   position := vadd b.position (vscale v1 c4Sim.timeStep) }) } :=
  ⟨⟨by simp [c4Sim], c5Root_build⟩,
    updateOrbitalSim_semi_implicit_euler 1 c4Sim c5Root (by simp [c4Sim]) c5Root_build⟩

/-- Concrete one-step evaluation of the single-body simulation: the lone
body feels zero acceleration and has zero velocity, so only time advances. -/
theorem c4Sim_update : updateOrbitalSim 1 (some c4Sim) = some ⟨2, 12, 1/2, [c5Body]⟩ := by
  have hz : calculateAcceleration c5Root c5Body.position (1/2) vzero = vzero := by
    apply calculateAcceleration_close_zero
    show Vector3Length (vsub (⟨1,2,3⟩ : Vec3 ℝ) c5Body.position) < BH_EPSILON
    have : c5Body.position = (⟨1,2,3⟩ : Vec3 ℝ) := rfl
    rw [this, Vector3Length_vsub_self]
    norm_num [BH_EPSILON]
  have hne : ¬ (c4Sim.bodies.length = 0) := by simp [c4Sim]
  simp only [updateOrbitalSim, if_neg hne]
  have hb : buildOctree 1 c4Sim.bodies = some c5Root := c5Root_build
  rw [hb]
  simp only [c4Sim, List.map_cons, List.map_nil, hz, List.zip_cons_cons, List.zip_nil_right]
  norm_num [vadd, vscale, vzero, c5Body]

/-- Witness for C10: one step of the single-body simulation preserves all
non-kinematic fields. -/
theorem updateOrbitalSim_frame_witness :
    (c4Sim.bodies ≠ [] ∧ updateOrbitalSim 1 (some c4Sim) = some ⟨2, 12, 1/2, [c5Body]⟩) ∧
    ((2 : ℝ) = c4Sim.timeStep ∧ (1/2 : ℝ) = c4Sim.theta ∧
      ([c5Body] : List (Body ℝ)).length = c4Sim.bodies.length ∧
      List.Forall₂ (fun b b' =>
        b'.name = b.name ∧ b'.mass = b.mass ∧ b'.radius = b.radius ∧ b'.color = b.color)
        c4Sim.bodies [c5Body]) :=
  ⟨⟨by simp [c4Sim], c4Sim_update⟩,
    updateOrbitalSim_frame 1 c4Sim ⟨2, 12, 1/2, [c5Body]⟩ (by simp [c4Sim]) c4Sim_update⟩

/-! ## The direct-summation variant (`src/code/orbitalSim.cpp`) -/

/-- `NUM_ASTEROIDS` (500) from `src/code/main.cpp`. -/
def NUM_ASTEROIDS : ℕ := 500

/-- `OrbitalBody` of the direct-summation variant's header
(`src/unnamed/part_004`), which also stores `previousPosition`. -/
structure BodyC where
  name : Option String
  mass : ℝ
  radius : ℝ
  color : ℕ
  position : Vec3 ℝ
  previousPosition : Vec3 ℝ
  velocity : Vec3 ℝ

noncomputable instance : Inhabited BodyC := ⟨⟨none, 0, 0, 0, vzero, vzero, vzero⟩⟩

/-- `OrbitalSim` of the direct-summation variant. -/
structure OrbitalSimC where
  timeStep : ℝ
  time : ℝ
  bodies : List BodyC

/-- `calculateGravitationalForce` from `src/code/orbitalSim.cpp`: zero
below distance 1, Newton's law otherwise. -/
noncomputable def calculateGravitationalForce
    (pos1 : Vec3 ℝ) (mass1 : ℝ) (pos2 : Vec3 ℝ) (mass2 : ℝ) : Vec3 ℝ :=
  let direction := vsub pos2 pos1
  let distance := Vector3Length direction
  if distance < 1 then vzero
  else vscale (Vector3Normalize direction)
    (GRAVITATIONAL_CONSTANT * mass1 * mass2 / (distance * distance))

/-- `calculateAccelerations` from `src/code/orbitalSim.cpp`: for each
source index in `[startIndex, endIndex)` add the accelerations induced by
every target index in `[targetStartIndex, targetEndIndex)`.  The `int`
loops run upward only, so an upper bound below the lower bound runs zero
iterations, which truncated `ℕ` subtraction reproduces. -/
noncomputable def calculateAccelerations (sim : OrbitalSimC) (accelerations : List (Vec3 ℝ))
    (startIndex endIndex targetStartIndex targetEndIndex : ℕ) : List (Vec3 ℝ) :=
  (List.range' startIndex (endIndex - startIndex)).foldl
    (fun acc i =>
      (List.range' targetStartIndex (targetEndIndex - targetStartIndex)).foldl
        (fun acc2 j =>
          let bi := sim.bodies.getD i default
          let bj := sim.bodies.getD j default
          let force := calculateGravitationalForce bi.position bi.mass bj.position bj.mass
          acc2.set i (vadd (acc2.getD i vzero) (vscale force (1 / bi.mass))))
        acc)
    accelerations

/-- `updateOrbitalSim` from `src/code/orbitalSim.cpp`: no guard of any
kind; two group-ranged acceleration passes, then a single sweep storing
`previousPosition` and updating velocity and position; finally
`time += timeStep` runs unconditionally. -/
noncomputable def codeUpdateOrbitalSim (sim : OrbitalSimC) : OrbitalSimC :=
  let accelerations : List (Vec3 ℝ) := List.replicate sim.bodies.length vzero
  let acc1 := calculateAccelerations sim accelerations
    NUM_ASTEROIDS sim.bodies.length NUM_ASTEROIDS sim.bodies.length
  let acc2 := calculateAccelerations sim acc1
    0 (NUM_ASTEROIDS - 1) NUM_ASTEROIDS sim.bodies.length
  let bodies1 := (sim.bodies.zip acc2).map (fun pa =>
    let v1 := vadd pa.1.velocity (vscale pa.2 sim.timeStep)
    { pa.1 with
      previousPosition := pa.1.position,
      velocity := v1,
      position := vadd pa.1.position (vscale v1 sim.timeStep) })
  { sim with bodies := bodies1, time := sim.time + sim.timeStep }

/-- Counterexample to **C9** as stated: the direct-summation variant's
`updateOrbitalSim` (also cited by the claim) has no guard, and on a
simulation with an empty body collection it still advances the elapsed
time, so the state does not remain unchanged. -/
theorem codeUpdateOrbitalSim_empty_changes_time :
    (codeUpdateOrbitalSim ⟨1, 0, []⟩).time ≠ (⟨1, 0, []⟩ : OrbitalSimC).time := by
  simp [codeUpdateOrbitalSim]

/-- **C9 (amended).** In the Barnes–Hut variant, stepping a `NULL` or
empty simulation is a guarded no-op: nothing is mutated, no work that can
fault is reached, the whole state including elapsed time is unchanged. -/
theorem updateOrbitalSim_noop_guard :
    (∀ fuel : ℕ, updateOrbitalSim fuel none = none) ∧
    (∀ (fuel : ℕ) (sim : OrbitalSim), sim.bodies = [] →
      updateOrbitalSim fuel (some sim) = some sim) := by
  refine ⟨fun fuel => rfl, fun fuel sim h => ?_⟩
  simp [updateOrbitalSim, h]

/-- Witness for the amended C9 at an empty simulation. -/
theorem updateOrbitalSim_noop_guard_witness :
    (updateOrbitalSim 5 none = none) ∧
    ((⟨2, 10, 1/2, []⟩ : OrbitalSim).bodies = [] ∧
      updateOrbitalSim 5 (some ⟨2, 10, 1/2, []⟩) = some ⟨2, 10, 1/2, []⟩) :=
  ⟨updateOrbitalSim_noop_guard.1 5,
    rfl, updateOrbitalSim_noop_guard.2 5 ⟨2, 10, 1/2, []⟩ rfl⟩

/-! ## Asteroid seeding -/

/-- raylib color tags (only identity matters). -/
def GRAY : ℕ := 1

/-- raylib `DARKGRAY`. -/
def DARKGRAY : ℕ := 2

/-- raylib `LIGHTGRAY`. -/
def LIGHTGRAY : ℕ := 3

/-- `ASTEROIDS_MEAN_RADIUS` (4E11). -/
noncomputable def ASTEROIDS_MEAN_RADIUS : ℝ := 4e11

/-- `getRandomFloat(min, max) = min + (max - min) * rand() / RAND_MAX`,
with the `rand() / RAND_MAX` value supplied explicitly. -/
noncomputable def getRandomFloat (lo hi : ℝ) (u : ℝ) : ℝ := lo + (hi - lo) * u

/-- `configureAsteroid` from `src/Claude/orbitalSim.cpp` (identical in
`src/unnamed/part_002`): the `rand()` stream is an explicit list of
`rand()/RAND_MAX` values in consumption order (`x`, `phi`, speed factor,
`vy`); returns the configured body and the remaining stream.  Fields the
function does not assign (`name`) stay those of the input body. -/
noncomputable def configureAsteroid (b : Body ℝ) (centerMass : ℝ) (rng : List ℝ) :
    Body ℝ × List ℝ :=
  let x := getRandomFloat 0 1 (rng.headD 0)
  let rng1 := rng.tail
  let l := Real.log x - Real.log (1 - x) + 1
  let r := ASTEROIDS_MEAN_RADIUS * Real.sqrt |l|
  let phi := getRandomFloat 0 (2 * Real.pi) (rng1.headD 0)
  let rng2 := rng1.tail
  let v := Real.sqrt (GRAVITATIONAL_CONSTANT * centerMass / r)
    * getRandomFloat 0.6 1.2 (rng2.headD 0)
  let rng3 := rng2.tail
  let vy := getRandomFloat (-100) 100 (rng3.headD 0)
  let rng4 := rng3.tail
  ({ b with
      mass := 1e12,
      radius := 2e3,
      color := GRAY,
      position := ⟨r * Real.cos phi, 0, r * Real.sin phi⟩,
      velocity := ⟨-v * Real.sin phi, vy, v * Real.cos phi⟩ }, rng4)

/-- `configureAsteroid` from `src/code/orbitalSim.cpp`: three weighted
radius regions (only the 10% branch uses the logit law), and the vertical
jitter goes into `position.y` while `velocity.y` is 0. -/
noncomputable def codeConfigureAsteroid (b : BodyC) (centerMass : ℝ) (rng : List ℝ) :
    BodyC × List ℝ :=
  let x := getRandomFloat 0 1 (rng.headD 0)
  let rng1 := rng.tail
  let l := Real.log x - Real.log (1 - x) + 1
  let regionSelector := getRandomFloat 0 1 (rng1.headD 0)
  let rng2 := rng1.tail
  let rc : ℝ × ℕ × List ℝ :=
    if regionSelector < 0.7 then
      (getRandomFloat 2.28e11 7.79e11 (rng2.headD 0), GRAY, rng2.tail)
    else if regionSelector ≥ 0.7 ∧ regionSelector < 0.9 then
      (7.79e11 * getRandomFloat 0.8 1.2 (rng2.headD 0), DARKGRAY, rng2.tail)
    else
      (ASTEROIDS_MEAN_RADIUS * Real.sqrt |l|, LIGHTGRAY, rng2)
  let r := rc.1
  let rng3 := rc.2.2
  let phi := getRandomFloat 0 (2 * Real.pi) (rng3.headD 0)
  let rng4 := rng3.tail
  let v := Real.sqrt (GRAVITATIONAL_CONSTANT * centerMass / r)
    * getRandomFloat 0.6 1.2 (rng4.headD 0)
  let rng5 := rng4.tail
  let vy := getRandomFloat (-100) 100 (rng5.headD 0)
  let rng6 := rng5.tail
  ({ b with
      mass := 1e12,
      radius := 2e3,
      color := rc.2.1,
      position := ⟨r * Real.cos phi, vy, r * Real.sin phi⟩,
      velocity := ⟨-v * Real.sin phi, 0, v * Real.cos phi⟩ }, rng6)

/-- Counterexample to **C8** as stated: in `src/code/orbitalSim.cpp`
(cited by the claim) the vertical jitter is assigned to the position's y
component — here 100 m/s·s worth of offset with `velocity.y = 0` — so the
claim's "jitter in velocity.y, position.y = 0" fails on that source. -/
theorem codeConfigureAsteroid_jitter_in_position :
    (codeConfigureAsteroid default 1 [1/2, 0, 0, 0, 1/2, 1]).1.position.y ≠ 0 ∧
    (codeConfigureAsteroid default 1 [1/2, 0, 0, 0, 1/2, 1]).1.velocity.y = 0 := by
  constructor
  · simp only [codeConfigureAsteroid, getRandomFloat, List.headD, List.tail]
    norm_num
  · simp only [codeConfigureAsteroid, getRandomFloat, List.headD, List.tail]

/-- **C8 (amended).** In the Barnes–Hut variant (and `part_002`), with
draws `x ∈ (0,1)`, `phi`-fraction in `[0,1)`, speed factor fraction in
`(0,1)` and jitter fraction in `[0,1]`, the seeding computes
`l = ln x - ln(1-x) + 1`, `r = meanRadius * sqrt |l|`, `phi ∈ [0, 2π)`,
`v = sqrt(G*centerMass/r)` scaled by a factor in `(0.6, 1.2)`,
`vy ∈ [-100, 100]`, and assigns `position = (r cos phi, 0, r sin phi)`,
`velocity = (-v sin phi, vy, v cos phi)`: the jitter sits in the
velocity's y component and the position's y component is 0.  (The
`src/code` variant instead places the jitter in `position.y` with
`velocity.y = 0` and draws the radius from three weighted regions.) -/
theorem configureAsteroid_seeding (b : Body ℝ) (M : ℝ) (u1 u2 u3 u4 : ℝ) (rest : List ℝ)
    (h1 : 0 < u1 ∧ u1 < 1) (h2 : 0 ≤ u2 ∧ u2 < 1)
    (h3 : 0 < u3 ∧ u3 < 1) (h4 : 0 ≤ u4 ∧ u4 ≤ 1) :
    (configureAsteroid b M (u1 :: u2 :: u3 :: u4 :: rest)).1.position =
      ⟨ASTEROIDS_MEAN_RADIUS * Real.sqrt |Real.log u1 - Real.log (1 - u1) + 1|
          * Real.cos (2 * Real.pi * u2),
        0,
        ASTEROIDS_MEAN_RADIUS * Real.sqrt |Real.log u1 - Real.log (1 - u1) + 1|
          * Real.sin (2 * Real.pi * u2)⟩ ∧
    (configureAsteroid b M (u1 :: u2 :: u3 :: u4 :: rest)).1.velocity =
      ⟨-(Real.sqrt (GRAVITATIONAL_CONSTANT * M /
            (ASTEROIDS_MEAN_RADIUS * Real.sqrt |Real.log u1 - Real.log (1 - u1) + 1|))
          * (0.6 + 0.6 * u3)) * Real.sin (2 * Real.pi * u2),
        -100 + 200 * u4,
        Real.sqrt (GRAVITATIONAL_CONSTANT * M /
            (ASTEROIDS_MEAN_RADIUS * Real.sqrt |Real.log u1 - Real.log (1 - u1) + 1|))
          * (0.6 + 0.6 * u3) * Real.cos (2 * Real.pi * u2)⟩ ∧
    (configureAsteroid b M (u1 :: u2 :: u3 :: u4 :: rest)).1.position.y = 0 ∧
    (configureAsteroid b M (u1 :: u2 :: u3 :: u4 :: rest)).1.velocity.y = -100 + 200 * u4 ∧
    (0 ≤ 2 * Real.pi * u2 ∧ 2 * Real.pi * u2 < 2 * Real.pi) ∧
    ((0.6 : ℝ) < 0.6 + 0.6 * u3 ∧ (0.6 : ℝ) + 0.6 * u3 < 1.2) ∧
    ((-100 : ℝ) ≤ -100 + 200 * u4 ∧ (-100 : ℝ) + 200 * u4 ≤ 100) := by
  have hpi : (0 : ℝ) < Real.pi := Real.pi_pos
  refine ⟨?_, ?_, ?_, ?_, ⟨?_, ?_⟩, ⟨?_, ?_⟩, ⟨?_, ?_⟩⟩
  · simp only [configureAsteroid, getRandomFloat, List.headD, List.tail]
    norm_num
  · simp only [configureAsteroid, getRandomFloat, List.headD, List.tail]
    norm_num
  · simp only [configureAsteroid, getRandomFloat, List.headD, List.tail]
  · simp only [configureAsteroid, getRandomFloat, List.headD, List.tail]
    norm_num
  · exact mul_nonneg (by positivity) h2.1
  · have := h2.2
    nlinarith
  · nlinarith [h3.1]
  · nlinarith [h3.2]
  · nlinarith [h4.1]
  · nlinarith [h4.2]

/-- Witness for the amended C8 at the midpoint draws. -/
theorem configureAsteroid_seeding_witness :
    (((0:ℝ) < 1/2 ∧ (1/2:ℝ) < 1) ∧ ((0:ℝ) ≤ 1/2 ∧ (1/2:ℝ) < 1) ∧
      ((0:ℝ) < 1/2 ∧ (1/2:ℝ) < 1) ∧ ((0:ℝ) ≤ 1/2 ∧ (1/2:ℝ) ≤ 1)) ∧
    ((configureAsteroid c5Body 1 [1/2, 1/2, 1/2, 1/2]).1.position.y = 0 ∧
      (configureAsteroid c5Body 1 [1/2, 1/2, 1/2, 1/2]).1.velocity.y
        = -100 + 200 * (1/2 : ℝ)) := by
  have h := configureAsteroid_seeding c5Body 1 (1/2) (1/2) (1/2) (1/2) []
    ⟨by norm_num, by norm_num⟩ ⟨by norm_num, by norm_num⟩
    ⟨by norm_num, by norm_num⟩ ⟨by norm_num, by norm_num⟩
  exact ⟨⟨⟨by norm_num, by norm_num⟩, ⟨by norm_num, by norm_num⟩,
    ⟨by norm_num, by norm_num⟩, ⟨by norm_num, by norm_num⟩⟩,
    h.2.2.1, h.2.2.2.1⟩

/-! ## Subtree contents and structural invariants of built trees -/

/-- The multiset contribution of an occupant pointer. -/
def occMset {K : Type} [LinearOrderedField K] : Option (Body K) → Multiset (Body K)
  | none => 0
  | some b => {b}

/-- The multiset of bodies stored at the leaves of a subtree. -/
def leafMset {K : Type} [LinearOrderedField K] : OctreeNode K → Multiset (Body K)
  | .null => 0
  | .mk _ _ _ _ _ bd k0 k1 k2 k3 k4 k5 k6 k7 =>
      occMset bd + leafMset k0 + leafMset k1 + leafMset k2 + leafMset k3
        + leafMset k4 + leafMset k5 + leafMset k6 + leafMset k7

/-- Every node of a subtree, the node itself first. -/
def allNodes {K : Type} [LinearOrderedField K] : OctreeNode K → List (OctreeNode K)
  | .null => []
  | .mk p s m com lf bd k0 k1 k2 k3 k4 k5 k6 k7 =>
      .mk p s m com lf bd k0 k1 k2 k3 k4 k5 k6 k7 ::
        (allNodes k0 ++ allNodes k1 ++ allNodes k2 ++ allNodes k3
          ++ allNodes k4 ++ allNodes k5 ++ allNodes k6 ++ allNodes k7)

@[simp] theorem leafMset_null {K : Type} [LinearOrderedField K] :
    leafMset (.null : OctreeNode K) = 0 := rfl

@[simp] theorem leafMset_mk {K : Type} [LinearOrderedField K]
    (p : Vec3 K) (s m com lf bd k0 k1 k2 k3 k4 k5 k6 k7) :
    leafMset (.mk p s m com lf bd k0 k1 k2 k3 k4 k5 k6 k7)
      = occMset bd + leafMset k0 + leafMset k1 + leafMset k2 + leafMset k3
        + leafMset k4 + leafMset k5 + leafMset k6 + leafMset k7 := rfl

/-- Replacing a child slot replaces exactly its contribution to the
subtree multiset (cancellative formulation). -/
theorem leafMset_setChild {K : Type} [LinearOrderedField K]
    (n : OctreeNode K) (i : ℕ) (c : OctreeNode K) (hi : i < 8) (hn : n ≠ .null) :
    leafMset (n.setChild i c) + leafMset (n.getChild i) = leafMset n + leafMset c := by
  rcases n with _ | ⟨p, s, m, com, lf, bd, k0, k1, k2, k3, k4, k5, k6, k7⟩
  · exact absurd rfl hn
  · interval_cases i <;>
      simp only [OctreeNode.setChild, OctreeNode.getChild, leafMset_mk] <;> abel

/-- Well-formedness of one node together with its whole subtree, as
established by `createNode` and preserved by successful positive-mass
insertion. -/
def Wf {K : Type} [LinearOrderedField K] : OctreeNode K → Prop
  | .null => True
  | .mk _ _ m com lf bd k0 k1 k2 k3 k4 k5 k6 k7 =>
      let L : Multiset (Body K) :=
        occMset bd + leafMset k0 + leafMset k1 + leafMset k2 + leafMset k3
          + leafMset k4 + leafMset k5 + leafMset k6 + leafMset k7
      m = (L.map Body.mass).sum ∧
      com.x * m = (L.map (fun b => b.position.x * b.mass)).sum ∧
      com.y * m = (L.map (fun b => b.position.y * b.mass)).sum ∧
      com.z * m = (L.map (fun b => b.position.z * b.mass)).sum ∧
      (∀ b ∈ L, 0 < b.mass) ∧
      (∀ b, bd = some b → lf = true ∧ com = b.position ∧ m = b.mass) ∧
      (lf = true → k0 = .null ∧ k1 = .null ∧ k2 = .null ∧ k3 = .null ∧
        k4 = .null ∧ k5 = .null ∧ k6 = .null ∧ k7 = .null) ∧
      (lf = false → bd = none ∧ 2 ≤ Multiset.card L) ∧
      (m = 0 → lf = true ∧ bd = none ∧ k0 = .null ∧ k1 = .null ∧ k2 = .null ∧
        k3 = .null ∧ k4 = .null ∧ k5 = .null ∧ k6 = .null ∧ k7 = .null) ∧
      (k0 ≠ .null → k0.totalMass ≠ 0) ∧ (k1 ≠ .null → k1.totalMass ≠ 0) ∧
      (k2 ≠ .null → k2.totalMass ≠ 0) ∧ (k3 ≠ .null → k3.totalMass ≠ 0) ∧
      (k4 ≠ .null → k4.totalMass ≠ 0) ∧ (k5 ≠ .null → k5.totalMass ≠ 0) ∧
      (k6 ≠ .null → k6.totalMass ≠ 0) ∧ (k7 ≠ .null → k7.totalMass ≠ 0) ∧
      Wf k0 ∧ Wf k1 ∧ Wf k2 ∧ Wf k3 ∧ Wf k4 ∧ Wf k5 ∧ Wf k6 ∧ Wf k7

theorem Wf_null {K : Type} [LinearOrderedField K] : Wf (.null : OctreeNode K) := trivial

/-- A fresh node is well-formed. -/
theorem Wf_createNode {K : Type} [LinearOrderedField K] (pos : Vec3 K) (size : K) :
    Wf (createNode pos size) := by
  simp [createNode, Wf, occMset]

/-- Children of a well-formed node are well-formed. -/
theorem Wf_getChild {K : Type} [LinearOrderedField K] (n : OctreeNode K) (i : ℕ)
    (hw : Wf n) : Wf (n.getChild i) := by
  rcases n with _ | ⟨p, s, m, com, lf, bd, k0, k1, k2, k3, k4, k5, k6, k7⟩
  · exact trivial
  · simp only [Wf] at hw
    obtain ⟨-, -, -, -, -, -, -, -, -, -, -, -, -, -, -, -, -,
      w0, w1, w2, w3, w4, w5, w6, w7⟩ := hw
    rcases i with _|_|_|_|_|_|_|_|i <;> simp only [OctreeNode.getChild]
    · exact w0
    · exact w1
    · exact w2
    · exact w3
    · exact w4
    · exact w5
    · exact w6
    · exact w7
    · exact trivial

/-- Reading a slot other than the one just written. -/
theorem getChild_setChild_other {K : Type} [LinearOrderedField K]
    (n : OctreeNode K) (i j : ℕ) (c : OctreeNode K) (hij : j ≠ i) :
    (n.setChild i c).getChild j = n.getChild j := by
  rcases n with _ | ⟨p, s, m, com, lf, bd, k0, k1, k2, k3, k4, k5, k6, k7⟩
  · rfl
  · rcases i with _|_|_|_|_|_|_|_|i <;> rcases j with _|_|_|_|_|_|_|_|j <;>
      first
        | rfl
        | (exact absurd rfl hij)
        | (exact absurd (by omega) hij)

/-- Well-formedness of an arbitrary slot read, given the eight children. -/
theorem Wf_getChild_mk {K : Type} [LinearOrderedField K]
    (p : Vec3 K) (s m : K) (com : Vec3 K) (lf : Bool) (bd : Option (Body K))
    (k0 k1 k2 k3 k4 k5 k6 k7 : OctreeNode K) (i : ℕ)
    (w0 : Wf k0) (w1 : Wf k1) (w2 : Wf k2) (w3 : Wf k3)
    (w4 : Wf k4) (w5 : Wf k5) (w6 : Wf k6) (w7 : Wf k7) :
    Wf ((OctreeNode.mk p s m com lf bd k0 k1 k2 k3 k4 k5 k6 k7).getChild i) := by
  rcases i with _|_|_|_|_|_|_|_|i <;> simp only [OctreeNode.getChild] <;>
    first
      | exact w0 | exact w1 | exact w2 | exact w3
      | exact w4 | exact w5 | exact w6 | exact w7 | exact trivial

/-- A well-formed node never has negative total mass. -/
theorem Wf_totalMass_nonneg {K : Type} [LinearOrderedField K]
    (n : OctreeNode K) (hw : Wf n) : 0 ≤ n.totalMass := by
  rcases n with _ | ⟨p, s, m, com, lf, bd, k0, k1, k2, k3, k4, k5, k6, k7⟩
  · exact le_refl 0
  · simp only [Wf] at hw
    rw [OctreeNode.totalMass_mk, hw.1]
    exact Multiset.sum_nonneg (by
      intro x hx
      simp only [Multiset.mem_map] at hx
      obtain ⟨b, hb, rfl⟩ := hx
      exact le_of_lt (hw.2.2.2.2.1 b hb))


@[simp] theorem OctreeNode.mk_ne_null {K : Type} [LinearOrderedField K]
    (p : Vec3 K) (s m com lf bd k0 k1 k2 k3 k4 k5 k6 k7) :
    (OctreeNode.mk p s m com lf bd k0 k1 k2 k3 k4 k5 k6 k7) ≠ (.null : OctreeNode K) := by
  intro h; cases h

/-- `setChild` never turns a real node into `NULL`. -/
theorem setChild_ne_null {K : Type} [LinearOrderedField K]
    (n : OctreeNode K) (i : ℕ) (c : OctreeNode K) (hn : n ≠ .null) :
    n.setChild i c ≠ .null := by
  rcases n with _ | ⟨p, s, m, com, lf, bd, k0, k1, k2, k3, k4, k5, k6, k7⟩
  · exact absurd rfl hn
  · rcases i with _|_|_|_|_|_|_|_|i <;> simp [OctreeNode.setChild]

/-- Overwriting the same slot twice keeps only the second write. -/
theorem setChild_setChild_same {K : Type} [LinearOrderedField K]
    (n : OctreeNode K) (i : ℕ) (c c' : OctreeNode K) :
    (n.setChild i c).setChild i c' = n.setChild i c' := by
  rcases n with _ | ⟨p, s, m, com, lf, bd, k0, k1, k2, k3, k4, k5, k6, k7⟩
  · rfl
  · rcases i with _|_|_|_|_|_|_|_|i <;> rfl

/-- Nonemptiness of an arbitrary slot read, given the eight conjuncts. -/
theorem childNe_getChild_mk {K : Type} [LinearOrderedField K]
    (p : Vec3 K) (s m : K) (com : Vec3 K) (lf : Bool) (bd : Option (Body K))
    (k0 k1 k2 k3 k4 k5 k6 k7 : OctreeNode K) (i : ℕ)
    (h0 : k0 ≠ .null → k0.totalMass ≠ 0) (h1 : k1 ≠ .null → k1.totalMass ≠ 0)
    (h2 : k2 ≠ .null → k2.totalMass ≠ 0) (h3 : k3 ≠ .null → k3.totalMass ≠ 0)
    (h4 : k4 ≠ .null → k4.totalMass ≠ 0) (h5 : k5 ≠ .null → k5.totalMass ≠ 0)
    (h6 : k6 ≠ .null → k6.totalMass ≠ 0) (h7 : k7 ≠ .null → k7.totalMass ≠ 0) :
    (OctreeNode.mk p s m com lf bd k0 k1 k2 k3 k4 k5 k6 k7).getChild i ≠ .null →
    ((OctreeNode.mk p s m com lf bd k0 k1 k2 k3 k4 k5 k6 k7).getChild i).totalMass ≠ 0 := by
  rcases i with _|_|_|_|_|_|_|_|i <;> simp only [OctreeNode.getChild] <;>
    first
      | exact h0 | exact h1 | exact h2 | exact h3
      | exact h4 | exact h5 | exact h6 | exact h7
      | (intro hc; exact absurd rfl hc)

/-- Rebuild well-formedness of an internal occupant-free node from
slot-read facts and the aggregate identities. -/
theorem Wf_assemble {K : Type} [LinearOrderedField K]
    (n : OctreeNode K) (hn : n ≠ .null)
    (hnl : n.isLeaf = false) (hnb : n.body = none)
    (hM : n.totalMass = ((leafMset n).map Body.mass).sum)
    (hx : n.centerOfMass.x * n.totalMass
      = ((leafMset n).map (fun b => b.position.x * b.mass)).sum)
    (hy : n.centerOfMass.y * n.totalMass
      = ((leafMset n).map (fun b => b.position.y * b.mass)).sum)
    (hz : n.centerOfMass.z * n.totalMass
      = ((leafMset n).map (fun b => b.position.z * b.mass)).sum)
    (hpos : ∀ b ∈ leafMset n, 0 < b.mass)
    (hcard : 2 ≤ Multiset.card (leafMset n))
    (hM0 : n.totalMass ≠ 0)
    (hcw : ∀ i, i < 8 → Wf (n.getChild i))
    (hcn : ∀ i, i < 8 → n.getChild i ≠ .null → (n.getChild i).totalMass ≠ 0) :
    Wf n := by
  rcases n with _ | ⟨p, s, m, com, lf, bd, k0, k1, k2, k3, k4, k5, k6, k7⟩
  · exact absurd rfl hn
  · simp only [OctreeNode.isLeaf_mk] at hnl
    simp only [OctreeNode.body_mk] at hnb
    subst hnl; subst hnb
    simp only [OctreeNode.totalMass_mk, OctreeNode.centerOfMass_mk,
      leafMset_mk] at hM hx hy hz hpos hcard hM0
    simp only [Wf]
    refine ⟨hM, hx, hy, hz, hpos, ?_, ?_, ?_, ?_, ?_, ?_, ?_, ?_, ?_, ?_, ?_, ?_,
      ?_, ?_, ?_, ?_, ?_, ?_, ?_, ?_⟩
    · intro x hx'; exact absurd hx' (by simp)
    · intro hf; exact absurd hf (by simp)
    · intro hf; exact ⟨by trivial, hcard⟩
    · intro h0; exact absurd h0 hM0
    · exact hcn 0 (by norm_num)
    · exact hcn 1 (by norm_num)
    · exact hcn 2 (by norm_num)
    · exact hcn 3 (by norm_num)
    · exact hcn 4 (by norm_num)
    · exact hcn 5 (by norm_num)
    · exact hcn 6 (by norm_num)
    · exact hcn 7 (by norm_num)
    · exact hcw 0 (by norm_num)
    · exact hcw 1 (by norm_num)
    · exact hcw 2 (by norm_num)
    · exact hcw 3 (by norm_num)
    · exact hcw 4 (by norm_num)
    · exact hcw 5 (by norm_num)
    · exact hcw 6 (by norm_num)
    · exact hcw 7 (by norm_num)
/-- The slot is `NULL`: `childFor` allocates a fresh empty child. -/
theorem childFor_of_null {K : Type} [LinearOrderedField K]
    (n : OctreeNode K) (o : ℕ) (h : n.getChild o = .null) :
    childFor n o
      = createNode (getOctantPosition n.position o (n.size / 2 / 2)) (n.size / 2) := by
  unfold childFor
  rw [h]

/-- The slot is occupied: `childFor` reuses the existing child. -/
theorem childFor_of_ne_null {K : Type} [LinearOrderedField K]
    (n : OctreeNode K) (o : ℕ) (h : n.getChild o ≠ .null) :
    childFor n o = n.getChild o := by
  unfold childFor
  rcases hgc : n.getChild o with _ | ⟨a1, a2, a3, a4, a5, a6, a7, a8, a9, a10, a11, a12, a13, a14⟩
  · exact absurd hgc h
  · rfl

/-- `childFor` is well-formed whenever the slots are, and carries exactly
the contents of the slot it stands for. -/
theorem childFor_Wf_mset {K : Type} [LinearOrderedField K]
    (n : OctreeNode K) (o : ℕ)
    (hw : ∀ i, i < 8 → Wf (n.getChild i)) (ho : o < 8) :
    Wf (childFor n o) ∧ leafMset (childFor n o) = leafMset (n.getChild o) := by
  by_cases hgc : n.getChild o = .null
  · rw [childFor_of_null n o hgc, hgc]
    exact ⟨Wf_createNode _ _, by simp [createNode, occMset]⟩
  · rw [childFor_of_ne_null n o hgc]
    exact ⟨hw o ho, rfl⟩

/-- `getChild_setChild_same` for a node not yet split into fields. -/
theorem getChild_setChild_same_of_ne {K : Type} [LinearOrderedField K]
    (n : OctreeNode K) (i : ℕ) (c : OctreeNode K) (hi : i < 8) (hn : n ≠ .null) :
    (n.setChild i c).getChild i = c := by
  rcases n with _ | ⟨p, s, m, com, lf, bd, k0, k1, k2, k3, k4, k5, k6, k7⟩
  · exact absurd rfl hn
  · exact getChild_setChild_same p s m com lf bd k0 k1 k2 k3 k4 k5 k6 k7 i c hi

/-- Master invariant: a successful positive-mass insertion preserves
well-formedness and adds exactly the inserted body to the subtree
contents. -/
theorem insertBody_preserves_Wf {K : Type} [LinearOrderedField K] :
    ∀ (fuel : ℕ) (n : OctreeNode K) (b : Body K) (n' : OctreeNode K),
    0 < b.mass → Wf n → insertBody fuel n b = some n' →
    Wf n' ∧ leafMset n' = {b} + leafMset n := by
  intro fuel
  induction fuel with
  | zero => intro n b n' hb hw h; simp [insertBody] at h
  | succ fuel ih =>
    intro n b n' hb hw h
    rcases n with _ | ⟨p, s, m, com, lf, bd, k0, k1, k2, k3, k4, k5, k6, k7⟩
    · simp [insertBody] at h
    simp only [Wf] at hw
    obtain ⟨e1, ex, ey, ez, hpos, hocc, hleaf, hint, hemp, q0, q1, q2, q3, q4, q5, q6, q7,
      w0, w1, w2, w3, w4, w5, w6, w7⟩ := hw
    by_cases hm : m = 0
    · -- the node is empty: become its sole occupant
      obtain ⟨rfl, rfl, rfl, rfl, rfl, rfl, rfl, rfl, rfl, rfl⟩ := hemp hm
      subst hm
      rw [insertBody_emptyCase] at h
      obtain rfl := (Option.some_injective _ h).symm
      constructor
      · exact ⟨by simp [occMset], by simp [occMset], by simp [occMset], by simp [occMset],
          fun x hx => by
            simp [occMset] at hx
            subst hx; exact hb,
          fun x hx => by
            obtain rfl : b = x := by simpa using hx
            exact ⟨rfl, rfl, rfl⟩,
          fun _ => ⟨rfl, rfl, rfl, rfl, rfl, rfl, rfl, rfl⟩,
          fun hf => absurd hf (by simp),
          fun h0 => absurd h0 (ne_of_gt hb),
          fun hc => absurd rfl hc, fun hc => absurd rfl hc, fun hc => absurd rfl hc,
          fun hc => absurd rfl hc, fun hc => absurd rfl hc, fun hc => absurd rfl hc,
          fun hc => absurd rfl hc, fun hc => absurd rfl hc,
          Wf_null, Wf_null, Wf_null, Wf_null, Wf_null, Wf_null, Wf_null, Wf_null⟩
      · simp [leafMset_mk, occMset]
    · have hm_nonneg : (0:K) ≤ m := by
        rw [e1]
        exact Multiset.sum_nonneg (by
          intro x hx
          simp only [Multiset.mem_map] at hx
          obtain ⟨bb, hbb, rfl⟩ := hx
          exact le_of_lt (hpos bb hbb))
      have hM0 : m + b.mass ≠ 0 := ne_of_gt (add_pos_of_nonneg_of_pos hm_nonneg hb)
      rcases lf with _ | _
      · -- internal node: route the body into its octant
        obtain ⟨rfl, hcard⟩ := hint rfl
        rw [insertBody_internalCase fuel p s m com none k0 k1 k2 k3 k4 k5 k6 k7 b hm] at h
        obtain ⟨c', hc', rfl⟩ := Option.map_eq_some'.mp h
        set o := getOctant p b.position with ho_def
        have ho8 : o < 8 := getOctant_lt_8 p b.position
        set ncom := comUpdate (OctreeNode.mk p s m com false none k0 k1 k2 k3 k4 k5 k6 k7) b
          with hncom
        obtain ⟨hcfw, hcfm⟩ := childFor_Wf_mset
          (OctreeNode.mk p s (m + b.mass) ncom false none k0 k1 k2 k3 k4 k5 k6 k7) o
          (fun i _ => Wf_getChild_mk p s (m + b.mass) ncom false none
            k0 k1 k2 k3 k4 k5 k6 k7 i w0 w1 w2 w3 w4 w5 w6 w7) ho8
        set n1 : OctreeNode K :=
          OctreeNode.mk p s (m + b.mass) ncom false none k0 k1 k2 k3 k4 k5 k6 k7 with hn1
        obtain ⟨wc', mc'⟩ := ih (childFor n1 o) b c' hb hcfw hc'
        have hcf_nonneg : (0:K) ≤ (childFor n1 o).totalMass := Wf_totalMass_nonneg _ hcfw
        have hmassc' : c'.totalMass = (childFor n1 o).totalMass + b.mass :=
          (insertBody_mass_com fuel _ _ _
            (ne_of_gt (add_pos_of_nonneg_of_pos hcf_nonneg hb)) hc').1
        have hn1ne : n1 ≠ .null := by rw [hn1]; exact OctreeNode.mk_ne_null _ _ _ _ _ _ _ _ _ _ _ _ _ _
        have hms : leafMset (n1.setChild o c') = {b} + leafMset n1 := by
          have h1 := leafMset_setChild n1 o c' ho8 hn1ne
          rw [mc', hcfm] at h1
          have h2 : leafMset n1 + (({b} : Multiset (Body K)) + leafMset (n1.getChild o))
              = ({b} + leafMset n1) + leafMset (n1.getChild o) := by abel
          rw [h2] at h1
          exact add_right_cancel h1
        have hmn1 : leafMset n1
            = leafMset (OctreeNode.mk p s m com false none k0 k1 k2 k3 k4 k5 k6 k7) := rfl
        refine ⟨?_, ?_⟩
        · apply Wf_assemble
          · exact setChild_ne_null _ _ _ hn1ne
          · simp [hn1]
          · simp [hn1]
          · rw [OctreeNode.totalMass_setChild, hms, hmn1, Multiset.map_add, Multiset.sum_add,
              Multiset.map_singleton, Multiset.sum_singleton, leafMset_mk, ← e1]
            simp only [hn1, OctreeNode.totalMass_mk]
            ring
          · rw [OctreeNode.centerOfMass_setChild, OctreeNode.totalMass_setChild, hms, hmn1,
              Multiset.map_add, Multiset.sum_add, Multiset.map_singleton,
              Multiset.sum_singleton, leafMset_mk, ← ex]
            simp only [hn1, OctreeNode.totalMass_mk, OctreeNode.centerOfMass_mk, hncom,
              comUpdate]
            rw [div_mul_cancel₀ _ hM0]
            ring
          · rw [OctreeNode.centerOfMass_setChild, OctreeNode.totalMass_setChild, hms, hmn1,
              Multiset.map_add, Multiset.sum_add, Multiset.map_singleton,
              Multiset.sum_singleton, leafMset_mk, ← ey]
            simp only [hn1, OctreeNode.totalMass_mk, OctreeNode.centerOfMass_mk, hncom,
              comUpdate]
            rw [div_mul_cancel₀ _ hM0]
            ring
          · rw [OctreeNode.centerOfMass_setChild, OctreeNode.totalMass_setChild, hms, hmn1,
              Multiset.map_add, Multiset.sum_add, Multiset.map_singleton,
              Multiset.sum_singleton, leafMset_mk, ← ez]
            simp only [hn1, OctreeNode.totalMass_mk, OctreeNode.centerOfMass_mk, hncom,
              comUpdate]
            rw [div_mul_cancel₀ _ hM0]
            ring
          · rw [hms, hmn1]
            intro x hx
            rcases Multiset.mem_add.mp hx with hx | hx
            · obtain rfl : x = b := by simpa using hx
              exact hb
            · exact hpos x hx
          · rw [hms, hmn1, leafMset_mk]
            simp only [Multiset.card_add, Multiset.card_singleton]
            simp only [Multiset.card_add] at hcard
            omega
          · rw [OctreeNode.totalMass_setChild]
            simp only [hn1, OctreeNode.totalMass_mk]
            exact hM0
          · intro i hi
            by_cases hio : i = o
            · subst hio
              rw [getChild_setChild_same_of_ne n1 o c' hi hn1ne]
              exact wc'
            · rw [getChild_setChild_other n1 o i c' hio, hn1]
              exact Wf_getChild_mk p s (m + b.mass) ncom false none
                k0 k1 k2 k3 k4 k5 k6 k7 i w0 w1 w2 w3 w4 w5 w6 w7
          · intro i hi
            by_cases hio : i = o
            · subst hio
              rw [getChild_setChild_same_of_ne n1 o c' hi hn1ne]
              intro _
              rw [hmassc']
              exact ne_of_gt (add_pos_of_nonneg_of_pos hcf_nonneg hb)
            · rw [getChild_setChild_other n1 o i c' hio, hn1]
              exact childNe_getChild_mk p s (m + b.mass) ncom false none
                k0 k1 k2 k3 k4 k5 k6 k7 i q0 q1 q2 q3 q4 q5 q6 q7
        · rw [hms, hmn1]
      · -- occupied leaf: subdivide, reinsert the occupant, insert the body
        rcases bd with _ | ob
        · -- leaf without occupant but nonzero mass: contradiction
          exfalso
          obtain ⟨rfl, rfl, rfl, rfl, rfl, rfl, rfl, rfl⟩ := hleaf rfl
          simp [occMset] at e1
          exact hm e1
        · obtain ⟨-, rfl, rfl⟩ := hocc ob rfl
          obtain ⟨rfl, rfl, rfl, rfl, rfl, rfl, rfl, rfl⟩ := hleaf rfl
          have hob : 0 < ob.mass := hpos ob (by simp [occMset])
          rw [insertBody_leafCase fuel p s ob.mass ob.position ob
            .null .null .null .null .null .null .null .null b hm] at h
          obtain ⟨c1, hc1, h2⟩ := Option.bind_eq_some.mp h
          simp only [] at h2
          obtain ⟨c2, hc2, rfl⟩ := Option.map_eq_some'.mp h2
          set oA := getOctant p ob.position with hoA_def
          have hoA8 : oA < 8 := getOctant_lt_8 p ob.position
          set oB := getOctant p b.position with hoB_def
          have hoB8 : oB < 8 := getOctant_lt_8 p b.position
          set ncom := comUpdate (OctreeNode.mk p s ob.mass ob.position true (some ob)
            .null .null .null .null .null .null .null .null) b with hncom
          set n2 : OctreeNode K := OctreeNode.mk p s (ob.mass + b.mass) ncom false none
            .null .null .null .null .null .null .null .null with hn2
          have hn2ne : n2 ≠ .null := by
            rw [hn2]; exact OctreeNode.mk_ne_null _ _ _ _ _ _ _ _ _ _ _ _ _ _
          have hn2w : ∀ i, i < 8 → Wf (n2.getChild i) := by
            intro i _
            rw [hn2, getChild_allNull]
            exact Wf_null
          obtain ⟨hcf1w, hcf1m⟩ := childFor_Wf_mset n2 oA hn2w hoA8
          obtain ⟨wc1, mc1⟩ := ih (childFor n2 oA) ob c1 hob hcf1w hc1
          have hc1m : leafMset c1 = {ob} := by
            rw [mc1, hcf1m, hn2, getChild_allNull, leafMset_null, add_zero]
          have hcf1_nonneg : (0:K) ≤ (childFor n2 oA).totalMass := Wf_totalMass_nonneg _ hcf1w
          have hmassc1 : c1.totalMass = (childFor n2 oA).totalMass + ob.mass :=
            (insertBody_mass_com fuel _ _ _
              (ne_of_gt (add_pos_of_nonneg_of_pos hcf1_nonneg hob)) hc1).1
          set n3 : OctreeNode K := n2.setChild oA c1 with hn3
          have hn3ne : n3 ≠ .null := setChild_ne_null _ _ _ hn2ne
          have hn3w : ∀ i, i < 8 → Wf (n3.getChild i) := by
            intro i hi
            by_cases hio : i = oA
            · subst hio
              rw [hn3, getChild_setChild_same_of_ne n2 oA c1 hi hn2ne]
              exact wc1
            · rw [hn3, getChild_setChild_other n2 oA i c1 hio]
              exact hn2w i hi
          have hn3m : leafMset n3 = {ob} := by
            have h1 := leafMset_setChild n2 oA c1 hoA8 hn2ne
            rw [hc1m, hn2, getChild_allNull, leafMset_null, add_zero, leafMset_mk] at h1
            rw [hn3, hn2]
            rw [h1]
            simp [occMset]
          have hn3t : n3.totalMass = ob.mass + b.mass := by
            rw [hn3, OctreeNode.totalMass_setChild, hn2, OctreeNode.totalMass_mk]
          obtain ⟨hcf2w, hcf2m⟩ := childFor_Wf_mset n3 oB hn3w hoB8
          obtain ⟨wc2, mc2⟩ := ih (childFor n3 oB) b c2 hb hcf2w hc2
          have hcf2_nonneg : (0:K) ≤ (childFor n3 oB).totalMass := Wf_totalMass_nonneg _ hcf2w
          have hmassc2 : c2.totalMass = (childFor n3 oB).totalMass + b.mass :=
            (insertBody_mass_com fuel _ _ _
              (ne_of_gt (add_pos_of_nonneg_of_pos hcf2_nonneg hb)) hc2).1
          have hms : leafMset (n3.setChild oB c2) = {b} + {ob} := by
            have h1 := leafMset_setChild n3 oB c2 hoB8 hn3ne
            rw [mc2, hcf2m, hn3m] at h1
            have h2 : ({ob} : Multiset (Body K)) + (({b} : Multiset (Body K))
                + leafMset (n3.getChild oB))
                = ({b} + {ob}) + leafMset (n3.getChild oB) := by abel
            rw [h2] at h1
            exact add_right_cancel h1
          refine ⟨?_, ?_⟩
          · apply Wf_assemble
            · exact setChild_ne_null _ _ _ hn3ne
            · rw [OctreeNode.isLeaf_setChild, hn3, OctreeNode.isLeaf_setChild, hn2,
                OctreeNode.isLeaf_mk]
            · rw [OctreeNode.body_setChild, hn3, OctreeNode.body_setChild, hn2,
                OctreeNode.body_mk]
            · rw [OctreeNode.totalMass_setChild, hms, hn3t, Multiset.map_add,
                Multiset.sum_add, Multiset.map_singleton, Multiset.sum_singleton,
                Multiset.map_singleton, Multiset.sum_singleton]
              ring
            · rw [OctreeNode.centerOfMass_setChild, OctreeNode.totalMass_setChild, hms, hn3t,
                Multiset.map_add, Multiset.sum_add, Multiset.map_singleton,
                Multiset.sum_singleton, Multiset.map_singleton, Multiset.sum_singleton,
                hn3, OctreeNode.centerOfMass_setChild, hn2, OctreeNode.centerOfMass_mk,
                hncom]
              simp only [comUpdate, OctreeNode.totalMass_mk, OctreeNode.centerOfMass_mk]
              rw [div_mul_cancel₀ _ hM0]
              ring
            · rw [OctreeNode.centerOfMass_setChild, OctreeNode.totalMass_setChild, hms, hn3t,
                Multiset.map_add, Multiset.sum_add, Multiset.map_singleton,
                Multiset.sum_singleton, Multiset.map_singleton, Multiset.sum_singleton,
                hn3, OctreeNode.centerOfMass_setChild, hn2, OctreeNode.centerOfMass_mk,
                hncom]
              simp only [comUpdate, OctreeNode.totalMass_mk, OctreeNode.centerOfMass_mk]
              rw [div_mul_cancel₀ _ hM0]
              ring
            · rw [OctreeNode.centerOfMass_setChild, OctreeNode.totalMass_setChild, hms, hn3t,
                Multiset.map_add, Multiset.sum_add, Multiset.map_singleton,
                Multiset.sum_singleton, Multiset.map_singleton, Multiset.sum_singleton,
                hn3, OctreeNode.centerOfMass_setChild, hn2, OctreeNode.centerOfMass_mk,
                hncom]
              simp only [comUpdate, OctreeNode.totalMass_mk, OctreeNode.centerOfMass_mk]
              rw [div_mul_cancel₀ _ hM0]
              ring
            · rw [hms]
              intro x hx
              rcases Multiset.mem_add.mp hx with hx | hx
              · obtain rfl : x = b := by simpa using hx
                exact hb
              · obtain rfl : x = ob := by simpa using hx
                exact hob
            · rw [hms]
              simp
            · rw [OctreeNode.totalMass_setChild, hn3t]
              exact hM0
            · intro i hi
              by_cases hio : i = oB
              · subst hio
                rw [getChild_setChild_same_of_ne n3 oB c2 hi hn3ne]
                exact wc2
              · rw [getChild_setChild_other n3 oB i c2 hio]
                exact hn3w i hi
            · intro i hi
              by_cases hio : i = oB
              · subst hio
                rw [getChild_setChild_same_of_ne n3 oB c2 hi hn3ne]
                intro _
                rw [hmassc2]
                exact ne_of_gt (add_pos_of_nonneg_of_pos hcf2_nonneg hb)
              · rw [getChild_setChild_other n3 oB i c2 hio]
                by_cases hia : i = oA
                · subst hia
                  rw [hn3, getChild_setChild_same_of_ne n2 oA c1 hi hn2ne]
                  intro _
                  rw [hmassc1]
                  exact ne_of_gt (add_pos_of_nonneg_of_pos hcf1_nonneg hob)
                · rw [hn3, getChild_setChild_other n2 oA i c1 hia, hn2, getChild_allNull]
                  intro hc
                  exact absurd rfl hc
          · rw [hms, leafMset_mk]
            simp [occMset]
/-- Folding successful insertions over a positive-mass body list preserves
well-formedness and fills the tree with exactly those bodies. -/
theorem foldInsert_Wf {K : Type} [LinearOrderedField K] (fuel : ℕ) (bs : List (Body K)) :
    ∀ (n root : OctreeNode K), (∀ b ∈ bs, 0 < b.mass) → Wf n →
    bs.foldlM (fun t bi => insertBody fuel t bi) n = some root →
    Wf root ∧ leafMset root = (bs : Multiset (Body K)) + leafMset n := by
  induction bs with
  | nil =>
    intro n root _ hw h
    simp only [List.foldlM_nil, pure, Option.some_injective _ |>.eq_iff] at h
    obtain rfl := h.symm
    exact ⟨hw, by simp⟩
  | cons b bs ih =>
    intro n root hpos hw h
    rw [List.foldlM_cons] at h
    obtain ⟨n1, h1, h2⟩ := Option.bind_eq_some.mp h
    obtain ⟨hw1, hm1⟩ :=
      insertBody_preserves_Wf fuel n b n1 (hpos b (List.mem_cons_self b bs)) hw h1
    obtain ⟨hwr, hmr⟩ := ih n1 root (fun bi hbi => hpos bi (List.mem_cons_of_mem b hbi)) hw1 h2
    refine ⟨hwr, ?_⟩
    have hcons : ((b :: bs : List (Body K)) : Multiset (Body K))
        = {b} + (bs : Multiset (Body K)) := by
      rw [← Multiset.cons_coe, Multiset.singleton_add]
    rw [hmr, hm1, hcons]
    abel

/-- A completed `buildOctree` returns a well-formed tree holding exactly the
input bodies. -/
theorem buildOctree_Wf {K : Type} [LinearOrderedField K]
    (fuel : ℕ) (bodies : List (Body K)) (root : OctreeNode K)
    (hpos : ∀ b ∈ bodies, 0 < b.mass)
    (h : buildOctree fuel bodies = some root) :
    Wf root ∧ leafMset root = (bodies : Multiset (Body K)) := by
  match bodies with
  | [] => simp [buildOctree] at h
  | b :: bs =>
    simp only [buildOctree] at h
    obtain ⟨hw, hm⟩ := foldInsert_Wf fuel (b :: bs) _ root hpos (Wf_createNode _ _) h
    refine ⟨hw, ?_⟩
    rw [hm]
    simp [createNode, occMset]

/-- Well-formedness propagates to every node of the subtree. -/
theorem Wf_allNodes {K : Type} [LinearOrderedField K] :
    ∀ (n : OctreeNode K), Wf n → ∀ x ∈ allNodes n, Wf x := by
  intro n
  induction n with
  | null => intro _ x hx; simp [allNodes] at hx
  | mk p s m com lf bd k0 k1 k2 k3 k4 k5 k6 k7 ih0 ih1 ih2 ih3 ih4 ih5 ih6 ih7 =>
    intro hw x hx
    have hw' := hw
    simp only [Wf] at hw'
    obtain ⟨-, -, -, -, -, -, -, -, -, -, -, -, -, -, -, -, -,
      w0, w1, w2, w3, w4, w5, w6, w7⟩ := hw'
    simp only [allNodes, List.mem_cons, List.mem_append] at hx
    rcases hx with rfl | (((((((h0 | h1) | h2) | h3) | h4) | h5) | h6) | h7)
    · exact hw
    · exact ih0 w0 x h0
    · exact ih1 w1 x h1
    · exact ih2 w2 x h2
    · exact ih3 w3 x h3
    · exact ih4 w4 x h4
    · exact ih5 w5 x h5
    · exact ih6 w6 x h6
    · exact ih7 w7 x h7

/-- In a well-formed tree whose own aggregated mass is nonzero, every node of
the subtree has nonzero aggregated mass. -/
theorem Wf_allNodes_mass_ne {K : Type} [LinearOrderedField K] :
    ∀ (n : OctreeNode K), Wf n → n.totalMass ≠ 0 → ∀ x ∈ allNodes n, x.totalMass ≠ 0 := by
  intro n
  induction n with
  | null => intro _ _ x hx; simp [allNodes] at hx
  | mk p s m com lf bd k0 k1 k2 k3 k4 k5 k6 k7 ih0 ih1 ih2 ih3 ih4 ih5 ih6 ih7 =>
    intro hw hm x hx
    simp only [Wf] at hw
    obtain ⟨-, -, -, -, -, -, -, -, -, q0, q1, q2, q3, q4, q5, q6, q7,
      w0, w1, w2, w3, w4, w5, w6, w7⟩ := hw
    simp only [allNodes, List.mem_cons, List.mem_append] at hx
    rcases hx with rfl | (((((((h0 | h1) | h2) | h3) | h4) | h5) | h6) | h7)
    · exact hm
    · by_cases hk : k0 = .null
      · rw [hk] at h0; simp [allNodes] at h0
      · exact ih0 w0 (q0 hk) x h0
    · by_cases hk : k1 = .null
      · rw [hk] at h1; simp [allNodes] at h1
      · exact ih1 w1 (q1 hk) x h1
    · by_cases hk : k2 = .null
      · rw [hk] at h2; simp [allNodes] at h2
      · exact ih2 w2 (q2 hk) x h2
    · by_cases hk : k3 = .null
      · rw [hk] at h3; simp [allNodes] at h3
      · exact ih3 w3 (q3 hk) x h3
    · by_cases hk : k4 = .null
      · rw [hk] at h4; simp [allNodes] at h4
      · exact ih4 w4 (q4 hk) x h4
    · by_cases hk : k5 = .null
      · rw [hk] at h5; simp [allNodes] at h5
      · exact ih5 w5 (q5 hk) x h5
    · by_cases hk : k6 = .null
      · rw [hk] at h6; simp [allNodes] at h6
      · exact ih6 w6 (q6 hk) x h6
    · by_cases hk : k7 = .null
      · rw [hk] at h7; simp [allNodes] at h7
      · exact ih7 w7 (q7 hk) x h7

/-- **C3.** For every collection of bodies with positive masses, after
`build(bodies)` completes, every node's `centerOfMass` equals the
mass-weighted average of the positions of all bodies in that node's subtree;
in particular, for 2 bodies of masses 1 and 3 at positions `(0,0,0)` and
`(4,0,0)`, the root's `centerOfMass` equals `(3,0,0)` in exact
arithmetic. -/
theorem buildOctree_centerOfMass_weighted_avg :
    (∀ (K : Type) [inst : LinearOrderedField K] (fuel : ℕ) (bodies : List (Body K))
        (root : OctreeNode K),
      (∀ b ∈ bodies, 0 < b.mass) → buildOctree fuel bodies = some root →
      ∀ x ∈ allNodes root,
        x.centerOfMass
          = vscale ⟨((leafMset x).map (fun b => b.position.x * b.mass)).sum,
                    ((leafMset x).map (fun b => b.position.y * b.mass)).sum,
                    ((leafMset x).map (fun b => b.position.z * b.mass)).sum⟩
              (1 / ((leafMset x).map Body.mass).sum)) ∧
    (buildOctree 3 [wBodyA, wBodyB] = some wRoot ∧ wRoot.centerOfMass = ⟨3, 0, 0⟩) := by
  constructor
  · intro K instK fuel bodies root hpos h x hx
    obtain ⟨hwr, hmr⟩ := buildOctree_Wf fuel bodies root hpos h
    have hb0 : bodies ≠ [] := by
      intro he
      rw [he] at h
      simp [buildOctree] at h
    have hmne : root.totalMass ≠ 0 := by
      rw [buildOctree_totalMass_eq_sum fuel bodies root hpos h]
      have : 0 < (bodies.map Body.mass).sum := by
        rcases bodies with _ | ⟨b, bs⟩
        · exact absurd rfl hb0
        · refine lt_of_lt_of_le (hpos b (List.mem_cons_self b bs)) ?_
          rw [List.map_cons, List.sum_cons]
          have : 0 ≤ (bs.map Body.mass).sum := by
            refine List.sum_nonneg ?_
            intro a ha
            obtain ⟨bb, hbb, rfl⟩ := List.mem_map.mp ha
            exact le_of_lt (hpos bb (List.mem_cons_of_mem b hbb))
          linarith
      exact ne_of_gt this
    have hwx : Wf x := Wf_allNodes root hwr x hx
    have hmx : x.totalMass ≠ 0 := Wf_allNodes_mass_ne root hwr hmne x hx
    rcases x with _ | ⟨p, s, m, com, lf, bd, k0, k1, k2, k3, k4, k5, k6, k7⟩
    · exact absurd rfl hmx
    · simp only [Wf] at hwx
      obtain ⟨e1, ex, ey, ez, -⟩ := hwx
      simp only [OctreeNode.totalMass_mk] at hmx
      simp only [OctreeNode.centerOfMass_mk, leafMset_mk]
      rw [← e1]
      ext
      · show com.x = _ * (1 / m)
        rw [← ex, mul_one_div, mul_div_cancel_right₀ _ hmx]
      · show com.y = _ * (1 / m)
        rw [← ey, mul_one_div, mul_div_cancel_right₀ _ hmx]
      · show com.z = _ * (1 / m)
        rw [← ez, mul_one_div, mul_div_cancel_right₀ _ hmx]
  · exact ⟨wRoot_build, rfl⟩

/-- Witness for C3: the general theorem instantiated at the two-body example,
every hypothesis discharged on concrete input; the root's stored
`centerOfMass` is exactly the mass-weighted average `(3,0,0)`. -/
theorem buildOctree_centerOfMass_weighted_avg_witness :
    (∀ b ∈ [wBodyA, wBodyB], (0:ℚ) < b.mass) ∧
    buildOctree 3 [wBodyA, wBodyB] = some wRoot ∧
    wRoot ∈ allNodes wRoot ∧
    wRoot.centerOfMass
      = vscale ⟨((leafMset wRoot).map (fun b => b.position.x * b.mass)).sum,
                ((leafMset wRoot).map (fun b => b.position.y * b.mass)).sum,
                ((leafMset wRoot).map (fun b => b.position.z * b.mass)).sum⟩
          (1 / ((leafMset wRoot).map Body.mass).sum) :=
  ⟨by norm_num [wBodyA, wBodyB], wRoot_build, by simp [wRoot, allNodes],
    buildOctree_centerOfMass_weighted_avg.1 ℚ 3 [wBodyA, wBodyB] wRoot
      (by norm_num [wBodyA, wBodyB]) wRoot_build wRoot (by simp [wRoot, allNodes])⟩
instance {K : Type} [LinearOrderedField K] : Inhabited (Body K) :=
  ⟨⟨none, 0, 0, 0, vzero, vzero⟩⟩

/-- The contribution of one point mass at `q` to the acceleration of a body
at `bodyPos`: the point-mass branch of `calculateAcceleration`, including
its `distance < 1e-6f` guard. -/
noncomputable def pointContrib (bodyPos q : Vec3 ℝ) (mass : ℝ) : Vec3 ℝ :=
  let dvec := vsub q bodyPos
  let d := Vector3Length dvec
  if d < BH_EPSILON then vzero
  else vscale (Vector3Normalize dvec) (GRAVITATIONAL_CONSTANT * mass / (d * d))

/-- `calculateGravitationalForce` from `src/unnamed/part_002`: force of the
body at `pos2` on the body at `pos1`, with the `distance < 1.0f` guard. -/
noncomputable def p2GravitationalForce (pos1 : Vec3 ℝ) (mass1 : ℝ)
    (pos2 : Vec3 ℝ) (mass2 : ℝ) : Vec3 ℝ :=
  let direction := vsub pos2 pos1
  let distance := Vector3Length direction
  if distance < 1 then vzero
  else vscale (Vector3Normalize direction)
    (GRAVITATIONAL_CONSTANT * mass1 * mass2 / (distance * distance))

/-- The inner `j` loop of `updateOrbitalSim` in `src/unnamed/part_002`:
`netForce` accumulated over all `j ≠ i`. -/
noncomputable def p2NetForce (bodies : List (Body ℝ)) (i : ℕ) : Vec3 ℝ :=
  (List.range bodies.length).foldl
    (fun netForce j =>
      if i ≠ j then
        vadd netForce (p2GravitationalForce (bodies.getD i default).position
          (bodies.getD i default).mass (bodies.getD j default).position
          (bodies.getD j default).mass)
      else netForce) vzero

/-- `accelerations[i] = Vector3Scale(netForce, 1.0f / mass)` from
`src/unnamed/part_002`. -/
noncomputable def p2Acceleration (bodies : List (Body ℝ)) (i : ℕ) : Vec3 ℝ :=
  vscale (p2NetForce bodies i) (1 / (bodies.getD i default).mass)

theorem Vec3.vaddAdd (a b : Vec3 ℝ) : vadd a b = a + b := rfl

theorem Vec3.vzeroZero : (vzero : Vec3 ℝ) = 0 := rfl

theorem Vec3.vaddVzero (a : Vec3 ℝ) : vadd a vzero = a := add_zero a

theorem Vec3.vscaleZero (s : ℝ) : vscale (0 : Vec3 ℝ) s = 0 := by
  simp [vscale, Vec3.zero_def]

theorem Vec3.vscaleVscale (v : Vec3 ℝ) (a b : ℝ) :
    vscale (vscale v a) b = vscale v (a * b) := by
  simp only [vscale]
  exact Vec3.ext (by ring) (by ring) (by ring)

theorem Vec3.vscaleSum (l : List (Vec3 ℝ)) (s : ℝ) :
    vscale l.sum s = (l.map (fun v => vscale v s)).sum := by
  induction l with
  | nil => simp only [List.map_nil, List.sum_nil, Vec3.vscaleZero]
  | cons a l ih =>
    simp only [List.sum_cons, List.map_cons]
    rw [← ih]
    simp only [vscale, Vec3.add_def]
    exact Vec3.ext (by ring) (by ring) (by ring)

/-- A `foldl` that only ever `vadd`s onto the accumulator is the sum of its
per-element contributions. -/
theorem foldl_vadd_eq_sum (f : ℕ → Vec3 ℝ) :
    ∀ (l : List ℕ) (acc : Vec3 ℝ),
    l.foldl (fun a j => vadd a (f j)) acc = vadd acc (l.map f).sum := by
  intro l
  induction l with
  | nil =>
    intro acc
    simp only [List.foldl_nil, List.map_nil, List.sum_nil]
    exact (add_zero acc).symm
  | cons j l ih =>
    intro acc
    simp only [List.foldl_cons, List.map_cons, List.sum_cons, ih]
    exact add_assoc acc (f j) ((l.map f).sum)

/-- Reading every index of a list back with `getD` reproduces the list. -/
theorem map_getD_range (d : Body ℝ) :
    ∀ (l : List (Body ℝ)), (List.range l.length).map (fun j => l.getD j d) = l := by
  intro l
  induction l with
  | nil => rfl
  | cons a l ih =>
    have hc : ((fun j => (a :: l).getD j d) ∘ Nat.succ) = (fun j => l.getD j d) :=
      funext fun j => rfl
    rw [List.length_cons, List.range_succ_eq_map, List.map_cons, List.map_map, hc, ih,
      List.getD_cons_zero]

/-- A point mass at the evaluated position contributes nothing. -/
theorem pointContrib_self (pos : Vec3 ℝ) (mass : ℝ) :
    pointContrib pos pos mass = vzero := by
  rw [pointContrib]
  simp only [Vector3Length_vsub_self]
  rw [if_pos (by norm_num [BH_EPSILON])]

/-- Every node of a child subtree is a node of the parent's subtree. -/
theorem mem_allNodes_child {K : Type} [LinearOrderedField K]
    (p : Vec3 K) (s m : K) (com : Vec3 K) (lf : Bool) (bd : Option (Body K))
    (k0 k1 k2 k3 k4 k5 k6 k7 : OctreeNode K) (x : OctreeNode K) (j : ℕ) (hj : j < 8)
    (hx : x ∈ allNodes ((OctreeNode.mk p s m com lf bd k0 k1 k2 k3 k4 k5 k6 k7).getChild j)) :
    x ∈ allNodes (.mk p s m com lf bd k0 k1 k2 k3 k4 k5 k6 k7) := by
  interval_cases j <;>
    simp only [OctreeNode.getChild] at hx <;>
    simp only [allNodes, List.mem_cons, List.mem_append] <;> tauto

/-- When every internal node beyond the epsilon guard is opened, the
Barnes–Hut traversal of a well-formed tree adds exactly the sum of the
point-mass contributions of the bodies stored in the tree, provided
every node dropped by the epsilon guard holds only bodies coincident with
the evaluated position. -/
theorem calculateAcceleration_exact (bodyPos : Vec3 ℝ) (theta : ℝ) :
    ∀ (t : OctreeNode ℝ), Wf t →
    (∀ x ∈ allNodes t, x.isLeaf = false →
      ¬ Vector3Length (vsub x.centerOfMass bodyPos) < BH_EPSILON →
      ¬ (x.size / Vector3Length (vsub x.centerOfMass bodyPos) < theta)) →
    (∀ x ∈ allNodes t, Vector3Length (vsub x.centerOfMass bodyPos) < BH_EPSILON →
      ∀ b ∈ leafMset x, b.position = bodyPos) →
    ∀ (acc : Vec3 ℝ),
    calculateAcceleration t bodyPos theta acc
      = vadd acc ((leafMset t).map
          (fun b => pointContrib bodyPos b.position b.mass)).sum := by
  intro t
  induction t with
  | null =>
    intro _ _ _ acc
    simp only [calculateAcceleration, leafMset_null, Multiset.map_zero, Multiset.sum_zero]
    exact (add_zero acc).symm
  | mk p s m com lf bd k0 k1 k2 k3 k4 k5 k6 k7 ih0 ih1 ih2 ih3 ih4 ih5 ih6 ih7 =>
    intro hw hopen heps acc
    have hw' := hw
    simp only [Wf] at hw'
    obtain ⟨e1, ex, ey, ez, hpos, hocc, hleaf, hint, hemp, q0, q1, q2, q3, q4, q5, q6, q7,
      w0, w1, w2, w3, w4, w5, w6, w7⟩ := hw'
    by_cases hm : m = 0
    · -- empty pristine node: contributes nothing and holds nothing
      obtain ⟨rfl, rfl, rfl, rfl, rfl, rfl, rfl, rfl, rfl, rfl⟩ := hemp hm
      subst hm
      simp only [calculateAcceleration, if_pos rfl, leafMset_mk, occMset, leafMset_null]
      simp only [add_zero, Multiset.map_zero, Multiset.sum_zero]
      exact (add_zero acc).symm
    · by_cases hd : Vector3Length (vsub com bodyPos) < BH_EPSILON
      · -- epsilon guard: node dropped, and its bodies all sit at bodyPos
        have hself := heps (.mk p s m com lf bd k0 k1 k2 k3 k4 k5 k6 k7)
          (List.mem_cons_self _ _) (by simpa using hd)
        have hzero : ∀ v ∈ (leafMset (OctreeNode.mk p s m com lf bd
            k0 k1 k2 k3 k4 k5 k6 k7)).map
            (fun b => pointContrib bodyPos b.position b.mass), v = 0 := by
          intro v hv
          obtain ⟨b, hb, rfl⟩ := Multiset.mem_map.mp hv
          rw [hself b hb, pointContrib_self]
          rfl
        rw [Multiset.sum_eq_zero hzero]
        simp only [calculateAcceleration, if_neg hm, if_pos hd]
        exact (add_zero acc).symm
      · rcases lf with _ | _
        · -- internal node: opened by hypothesis, recurse
          obtain ⟨rfl, -⟩ := hint rfl
          have hno : ¬ (s / Vector3Length (vsub com bodyPos) < theta) :=
            hopen (.mk p s m com false none k0 k1 k2 k3 k4 k5 k6 k7)
              (List.mem_cons_self _ _) (by simp) (by simpa using hd)
          have hiff : ¬ ((false = true) ∨ s / Vector3Length (vsub com bodyPos) < theta) := by
            rintro (hc | hc)
            · exact absurd hc (by simp)
            · exact hno hc
          simp only [calculateAcceleration, if_neg hm, if_neg hd, if_neg hiff]
          have hopenC : ∀ j : ℕ, j < 8 → ∀ x ∈ allNodes ((OctreeNode.mk p s m com false none
              k0 k1 k2 k3 k4 k5 k6 k7).getChild j), x.isLeaf = false →
              ¬ Vector3Length (vsub x.centerOfMass bodyPos) < BH_EPSILON →
              ¬ (x.size / Vector3Length (vsub x.centerOfMass bodyPos) < theta) :=
            fun j hj x hx => hopen x (mem_allNodes_child p s m com false none
              k0 k1 k2 k3 k4 k5 k6 k7 x j hj hx)
          have hepsC : ∀ j : ℕ, j < 8 → ∀ x ∈ allNodes ((OctreeNode.mk p s m com false none
              k0 k1 k2 k3 k4 k5 k6 k7).getChild j),
              Vector3Length (vsub x.centerOfMass bodyPos) < BH_EPSILON →
              ∀ b ∈ leafMset x, b.position = bodyPos :=
            fun j hj x hx => heps x (mem_allNodes_child p s m com false none
              k0 k1 k2 k3 k4 k5 k6 k7 x j hj hx)
          rw [ih0 w0 (hopenC 0 (by norm_num)) (hepsC 0 (by norm_num)) acc]
          rw [ih1 w1 (hopenC 1 (by norm_num)) (hepsC 1 (by norm_num))]
          rw [ih2 w2 (hopenC 2 (by norm_num)) (hepsC 2 (by norm_num))]
          rw [ih3 w3 (hopenC 3 (by norm_num)) (hepsC 3 (by norm_num))]
          rw [ih4 w4 (hopenC 4 (by norm_num)) (hepsC 4 (by norm_num))]
          rw [ih5 w5 (hopenC 5 (by norm_num)) (hepsC 5 (by norm_num))]
          rw [ih6 w6 (hopenC 6 (by norm_num)) (hepsC 6 (by norm_num))]
          rw [ih7 w7 (hopenC 7 (by norm_num)) (hepsC 7 (by norm_num))]
          simp only [leafMset_mk, occMset, Multiset.map_add, Multiset.sum_add,
            Vec3.vaddAdd, zero_add]
          abel
        · -- leaf beyond epsilon: exactly the single occupant's contribution
          rcases bd with _ | ob
          · exfalso
            obtain ⟨rfl, rfl, rfl, rfl, rfl, rfl, rfl, rfl⟩ := hleaf rfl
            simp [occMset] at e1
            exact hm e1
          · obtain ⟨-, rfl, rfl⟩ := hocc ob rfl
            obtain ⟨rfl, rfl, rfl, rfl, rfl, rfl, rfl, rfl⟩ := hleaf rfl
            simp only [calculateAcceleration, if_neg hm, if_neg hd, true_or, ite_true]
            simp only [leafMset_mk, occMset, leafMset_null, add_zero,
              Multiset.map_singleton, Multiset.sum_singleton]
            rw [pointContrib]
            rw [if_neg hd]

/-- The sum of the point-mass contributions of a body list equals the
per-body direct pairwise acceleration of `src/unnamed/part_002`, provided
every other body's position is either identical to the evaluated body's or
at least `1` away (so the two guards agree). -/
theorem pointContribSum_eq_p2Acceleration (bodies : List (Body ℝ)) (i : ℕ)
    (hi : i < bodies.length)
    (hmi : (bodies.getD i default).mass ≠ 0)
    (hfar : ∀ b ∈ bodies, b.position ≠ (bodies.getD i default).position →
      1 ≤ Vector3Length (vsub b.position (bodies.getD i default).position)) :
    ((bodies : Multiset (Body ℝ)).map
      (fun b => pointContrib (bodies.getD i default).position b.position b.mass)).sum
      = p2Acceleration bodies i := by
  rw [Multiset.map_coe, Multiset.sum_coe]
  rw [p2Acceleration, p2NetForce]
  have hbody : (fun (netForce : Vec3 ℝ) (j : ℕ) =>
      if i ≠ j then
        vadd netForce (p2GravitationalForce (bodies.getD i default).position
          (bodies.getD i default).mass (bodies.getD j default).position
          (bodies.getD j default).mass)
      else netForce)
      = fun (netForce : Vec3 ℝ) (j : ℕ) =>
        vadd netForce (if i ≠ j then p2GravitationalForce (bodies.getD i default).position
          (bodies.getD i default).mass (bodies.getD j default).position
          (bodies.getD j default).mass else vzero) := by
    funext nf j
    by_cases hij : i ≠ j
    · rw [if_pos hij, if_pos hij]
    · rw [if_neg hij, if_neg hij, Vec3.vaddVzero]
  rw [hbody, foldl_vadd_eq_sum, Vec3.vaddAdd, Vec3.vzeroZero, zero_add, Vec3.vscaleSum,
    List.map_map]
  have hrw : bodies.map
      (fun b => pointContrib (bodies.getD i default).position b.position b.mass)
      = ((List.range bodies.length).map (fun j => bodies.getD j default)).map
        (fun b => pointContrib (bodies.getD i default).position b.position b.mass) := by
    rw [map_getD_range]
  rw [hrw, List.map_map]
  refine congrArg List.sum (List.map_congr_left ?_)
  intro j hj
  have hjlen : j < bodies.length := List.mem_range.mp hj
  simp only [Function.comp]
  by_cases hij : i = j
  · subst hij
    rw [if_neg (by simp), pointContrib_self, Vec3.vzeroZero, Vec3.vscaleZero]
  · rw [if_pos hij]
    have hmem : bodies.getD j default ∈ bodies := by
      rw [List.getD_eq_getElem bodies default hjlen]
      exact List.getElem_mem hjlen
    by_cases hpq : (bodies.getD j default).position = (bodies.getD i default).position
    · have heps1 : (0:ℝ) < 1 := one_pos
      have heps2 : (0:ℝ) < BH_EPSILON := by norm_num [BH_EPSILON]
      rw [p2GravitationalForce, pointContrib, hpq]
      simp only [Vector3Length_vsub_self]
      rw [if_pos heps1, if_pos heps2, Vec3.vzeroZero, Vec3.vscaleZero]
    · have h1 : 1 ≤ Vector3Length (vsub (bodies.getD j default).position
          (bodies.getD i default).position) := hfar _ hmem hpq
      rw [p2GravitationalForce, pointContrib]
      rw [if_neg (not_lt.mpr h1), if_neg (not_lt.mpr (le_trans (by norm_num [BH_EPSILON]) h1))]
      rw [Vec3.vscaleVscale]
      refine congrArg _ ?_
      set L := Vector3Length (vsub (bodies.getD j default).position
        (bodies.getD i default).position) with hL
      set mi := (bodies.getD i default).mass with hmieq
      set mj := (bodies.getD j default).mass with hmjeq
      have hsc : GRAVITATIONAL_CONSTANT * mi * mj / (L * L) * (1 / mi)
          = GRAVITATIONAL_CONSTANT * mj / (L * L) * (mi / mi) := by ring
      rw [hsc, div_self hmi, mul_one]

/-- `foldr min` lower-bounds every list element. -/
theorem foldr_min_le (a : ℝ) : ∀ (l : List ℝ), ∀ r ∈ l, l.foldr min a ≤ r := by
  intro l
  induction l with
  | nil => intro r hr; simp at hr
  | cons x l ih =>
    intro r hr
    rcases List.mem_cons.mp hr with rfl | hr
    · exact min_le_left _ _
    · exact le_trans (min_le_right _ _) (ih r hr)

/-- `foldr min` of positives over a positive seed is positive. -/
theorem foldr_min_pos (a : ℝ) (ha : 0 < a) :
    ∀ (l : List ℝ), (∀ r ∈ l, 0 < r) → 0 < l.foldr min a := by
  intro l
  induction l with
  | nil => intro _; exact ha
  | cons x l ih =>
    intro hl
    exact lt_min (hl x (List.mem_cons_self x l))
      (ih fun r hr => hl r (List.mem_cons_of_mem x hr))

/-- The smallest opening ratio `size / distance` over the internal nodes of
the tree that survive the epsilon guard (seeded with 1 when there is none):
any `theta` at or below it opens every such node. -/
noncomputable def minRatio (root : OctreeNode ℝ) (bodyPos : Vec3 ℝ) : ℝ :=
  ((allNodes root).filterMap (fun x =>
    if x.isLeaf = false ∧ ¬ Vector3Length (vsub x.centerOfMass bodyPos) < BH_EPSILON
    then some (x.size / Vector3Length (vsub x.centerOfMass bodyPos)) else none)).foldr min 1

theorem minRatio_pos (root : OctreeNode ℝ) (bodyPos : Vec3 ℝ)
    (hsz : ∀ x ∈ allNodes root, 0 < x.size) :
    0 < minRatio root bodyPos := by
  refine foldr_min_pos 1 one_pos _ ?_
  intro r hr
  obtain ⟨x, hx, hfx⟩ := List.mem_filterMap.mp hr
  rcases ite_eq_iff.mp hfx with ⟨⟨-, hd⟩, he⟩ | ⟨-, he⟩
  · obtain rfl := (Option.some_injective _ he)
    have hd' : BH_EPSILON ≤ Vector3Length (vsub x.centerOfMass bodyPos) := not_lt.mp hd
    have hdp : 0 < Vector3Length (vsub x.centerOfMass bodyPos) :=
      lt_of_lt_of_le (by norm_num [BH_EPSILON]) hd'
    exact div_pos (hsz x hx) hdp
  · exact absurd he (by simp)

theorem minRatio_le (root : OctreeNode ℝ) (bodyPos : Vec3 ℝ)
    (x : OctreeNode ℝ) (hx : x ∈ allNodes root) (hlf : x.isLeaf = false)
    (hd : ¬ Vector3Length (vsub x.centerOfMass bodyPos) < BH_EPSILON) :
    minRatio root bodyPos ≤ x.size / Vector3Length (vsub x.centerOfMass bodyPos) := by
  refine foldr_min_le 1 _ _ ?_
  refine List.mem_filterMap.mpr ⟨x, hx, ?_⟩
  rw [if_pos ⟨hlf, hd⟩]

/-- Amended C6: for every collection of positive-mass bodies whose non-
coincident pairs are at least `1` apart (so the two variants' distance
guards agree), and whose built octree is non-degenerate for the evaluated
body — every node whose `centerOfMass` falls within epsilon of the body's
position holds only bodies at exactly that position, and every node has
positive `size` — there is a positive `theta0` below which the Barnes–Hut
acceleration equals the direct pairwise sum of `src/unnamed/part_002`
exactly. -/
theorem calculateAcceleration_theta_exact
    (bodies : List (Body ℝ)) (fuel : ℕ) (root : OctreeNode ℝ) (i : ℕ)
    (hi : i < bodies.length)
    (hpos : ∀ b ∈ bodies, 0 < b.mass)
    (hbuild : buildOctree fuel bodies = some root)
    (hfar : ∀ b ∈ bodies, b.position ≠ (bodies.getD i default).position →
      1 ≤ Vector3Length (vsub b.position (bodies.getD i default).position))
    (hnd : ∀ x ∈ allNodes root,
      Vector3Length (vsub x.centerOfMass (bodies.getD i default).position) < BH_EPSILON →
      ∀ b ∈ leafMset x, b.position = (bodies.getD i default).position)
    (hsz : ∀ x ∈ allNodes root, 0 < x.size) :
    ∃ theta0 : ℝ, 0 < theta0 ∧ ∀ theta : ℝ, theta ≤ theta0 →
      calculateAcceleration root (bodies.getD i default).position theta vzero
        = p2Acceleration bodies i := by
  obtain ⟨hwr, hmr⟩ := buildOctree_Wf fuel bodies root hpos hbuild
  refine ⟨minRatio root (bodies.getD i default).position,
    minRatio_pos _ _ hsz, ?_⟩
  intro theta htheta
  have hopen : ∀ x ∈ allNodes root, x.isLeaf = false →
      ¬ Vector3Length (vsub x.centerOfMass (bodies.getD i default).position) < BH_EPSILON →
      ¬ (x.size / Vector3Length (vsub x.centerOfMass
          (bodies.getD i default).position) < theta) := by
    intro x hx hlf hd
    exact not_lt.mpr (le_trans htheta (minRatio_le root _ x hx hlf hd))
  rw [calculateAcceleration_exact (bodies.getD i default).position theta root hwr hopen hnd
    vzero]
  rw [Vec3.vaddAdd, Vec3.vzeroZero, zero_add, hmr]
  have hmemi : bodies.getD i default ∈ bodies := by
    rw [List.getD_eq_getElem bodies default hi]
    exact List.getElem_mem hi
  exact pointContribSum_eq_p2Acceleration bodies i hi (ne_of_gt (hpos _ hmemi)) hfar

/-- Length of a vector supported on the x-axis. -/
theorem vlen_axis (a : ℝ) : Vector3Length ⟨a, 0, 0⟩ = |a| := by
  rw [Vector3Length]
  rw [show a * a + (0:ℝ) * 0 + (0:ℝ) * 0 = a * a by ring, Real.sqrt_mul_self_eq_abs]

noncomputable def c6wBody1 : Body ℝ := ⟨none, 1, 1, 0, ⟨0, 0, 0⟩, ⟨0, 0, 0⟩⟩

noncomputable def c6wBody2 : Body ℝ := ⟨none, 3, 1, 0, ⟨4, 0, 0⟩, ⟨0, 0, 0⟩⟩

noncomputable def c6wLeafA : OctreeNode ℝ :=
  .mk ⟨9/10, 11/10, 11/10⟩ (11/5) 1 ⟨0, 0, 0⟩ true (some c6wBody1)
    .null .null .null .null .null .null .null .null

noncomputable def c6wLeafB : OctreeNode ℝ :=
  .mk ⟨31/10, 11/10, 11/10⟩ (11/5) 3 ⟨4, 0, 0⟩ true (some c6wBody2)
    .null .null .null .null .null .null .null .null

noncomputable def c6wRoot : OctreeNode ℝ :=
  .mk ⟨2, 0, 0⟩ (22/5) 4 ⟨3, 0, 0⟩ false none
    .null .null .null .null .null .null c6wLeafA c6wLeafB

set_option maxHeartbeats 1600000 in
/-- Concrete real-arithmetic evaluation of `buildOctree` on the two-body
configuration of the C6 witness. -/
theorem c6wRoot_build : buildOctree 3 [c6wBody1, c6wBody2] = some c6wRoot := by
  norm_num [buildOctree, c6wBody1, c6wBody2, c6wRoot, c6wLeafA, c6wLeafB, createNode,
    insertBody_emptyEval, insertBody_leafEval, insertBody_internalEval,
    childFor, getOctant, getOctantPosition, comUpdate,
    OctreeNode.getChild, OctreeNode.setChild]
  decide

/-- Witness for the amended C6: the two-body configuration (masses 1 and 3,
four apart) satisfies every hypothesis, and below the resulting positive
`theta0` the Barnes–Hut acceleration coincides with the direct pairwise sum
of `src/unnamed/part_002`. -/
theorem calculateAcceleration_theta_exact_witness :
    ((0 < [c6wBody1, c6wBody2].length ∧
      (∀ b ∈ [c6wBody1, c6wBody2], 0 < b.mass) ∧
      buildOctree 3 [c6wBody1, c6wBody2] = some c6wRoot ∧
      (∀ b ∈ [c6wBody1, c6wBody2], b.position ≠ c6wBody1.position →
        1 ≤ Vector3Length (vsub b.position c6wBody1.position)) ∧
      (∀ x ∈ allNodes c6wRoot,
        Vector3Length (vsub x.centerOfMass c6wBody1.position) < BH_EPSILON →
        ∀ b ∈ leafMset x, b.position = c6wBody1.position) ∧
      (∀ x ∈ allNodes c6wRoot, 0 < x.size)) ∧
    ∃ theta0 : ℝ, 0 < theta0 ∧ ∀ theta : ℝ, theta ≤ theta0 →
      calculateAcceleration c6wRoot c6wBody1.position theta vzero
        = p2Acceleration [c6wBody1, c6wBody2] 0) := by
  have hlen : 0 < [c6wBody1, c6wBody2].length := by norm_num
  have hpos : ∀ b ∈ [c6wBody1, c6wBody2], 0 < b.mass := by
    intro b hb
    rcases List.mem_cons.mp hb with rfl | hb
    · norm_num [c6wBody1]
    · rcases List.mem_cons.mp hb with rfl | hb
      · norm_num [c6wBody2]
      · simp at hb
  have hfar : ∀ b ∈ [c6wBody1, c6wBody2], b.position ≠ c6wBody1.position →
      1 ≤ Vector3Length (vsub b.position c6wBody1.position) := by
    intro b hb hne
    rcases List.mem_cons.mp hb with rfl | hb
    · exact absurd rfl hne
    · rcases List.mem_cons.mp hb with rfl | hb
      · rw [show vsub c6wBody2.position c6wBody1.position = ⟨4, 0, 0⟩ by
          simp [c6wBody1, c6wBody2, vsub]]
        rw [vlen_axis]
        norm_num
      · simp at hb
  have hnd : ∀ x ∈ allNodes c6wRoot,
      Vector3Length (vsub x.centerOfMass c6wBody1.position) < BH_EPSILON →
      ∀ b ∈ leafMset x, b.position = c6wBody1.position := by
    intro x hx
    simp only [c6wRoot, c6wLeafA, c6wLeafB, allNodes, List.mem_cons, List.not_mem_nil,
      or_false, List.nil_append, List.append_nil, List.mem_append] at hx
    rcases hx with rfl | rfl | rfl
    · intro hlt
      exfalso
      rw [OctreeNode.centerOfMass_mk,
        show vsub (⟨3, 0, 0⟩ : Vec3 ℝ) c6wBody1.position = ⟨3, 0, 0⟩ by
          simp [c6wBody1, vsub],
        vlen_axis] at hlt
      rw [abs_of_nonneg (by norm_num : (0:ℝ) ≤ 3)] at hlt
      norm_num [BH_EPSILON] at hlt
    · intro _ b hb
      simp only [leafMset_mk, occMset, leafMset_null, add_zero] at hb
      obtain rfl : b = c6wBody1 := by simpa using hb
      rfl
    · intro hlt
      exfalso
      rw [OctreeNode.centerOfMass_mk,
        show vsub (⟨4, 0, 0⟩ : Vec3 ℝ) c6wBody1.position = ⟨4, 0, 0⟩ by
          simp [c6wBody1, vsub],
        vlen_axis] at hlt
      rw [abs_of_nonneg (by norm_num : (0:ℝ) ≤ 4)] at hlt
      norm_num [BH_EPSILON] at hlt
  have hsz : ∀ x ∈ allNodes c6wRoot, 0 < x.size := by
    intro x hx
    simp only [c6wRoot, c6wLeafA, c6wLeafB, allNodes, List.mem_cons, List.not_mem_nil,
      or_false, List.nil_append, List.append_nil, List.mem_append] at hx
    rcases hx with rfl | rfl | rfl <;> rw [OctreeNode.size_mk] <;> norm_num
  exact ⟨⟨hlen, hpos, c6wRoot_build, hfar, hnd, hsz⟩,
    calculateAcceleration_theta_exact [c6wBody1, c6wBody2] 3 c6wRoot 0 hlen hpos
      c6wRoot_build hfar hnd hsz⟩

noncomputable def c6Body1 : Body ℝ := ⟨none, 1, 1, 0, ⟨0, 0, 0⟩, ⟨0, 0, 0⟩⟩

noncomputable def c6Body2 : Body ℝ := ⟨none, 1, 1, 0, ⟨8, 0, 0⟩, ⟨0, 0, 0⟩⟩

noncomputable def c6Body3 : Body ℝ := ⟨none, 2, 1, 0, ⟨-4, 0, 0⟩, ⟨0, 0, 0⟩⟩

noncomputable def c6Leaf1 : OctreeNode ℝ :=
  .mk ⟨7/20, 33/20, 33/20⟩ (33/10) 1 ⟨0, 0, 0⟩ true (some c6Body1)
    .null .null .null .null .null .null .null .null

noncomputable def c6Leaf3 : OctreeNode ℝ :=
  .mk ⟨-59/20, 33/20, 33/20⟩ (33/10) 2 ⟨-4, 0, 0⟩ true (some c6Body3)
    .null .null .null .null .null .null .null .null

noncomputable def c6Node6 : OctreeNode ℝ :=
  .mk ⟨-13/10, 33/10, 33/10⟩ (33/5) 3 ⟨-8/3, 0, 0⟩ false none
    c6Leaf3 c6Leaf1 .null .null .null .null .null .null

noncomputable def c6Leaf2 : OctreeNode ℝ :=
  .mk ⟨53/10, 33/10, 33/10⟩ (33/5) 1 ⟨8, 0, 0⟩ true (some c6Body2)
    .null .null .null .null .null .null .null .null

noncomputable def c6Root : OctreeNode ℝ :=
  .mk ⟨2, 0, 0⟩ (66/5) 4 ⟨0, 0, 0⟩ false none
    .null .null .null .null .null .null c6Node6 c6Leaf2

noncomputable def c6Mid1 : OctreeNode ℝ :=
  .mk ⟨2, 0, 0⟩ (66/5) 1 ⟨0, 0, 0⟩ true (some c6Body1)
    .null .null .null .null .null .null .null .null

noncomputable def c6LeafA1 : OctreeNode ℝ :=
  .mk ⟨-13/10, 33/10, 33/10⟩ (33/5) 1 ⟨0, 0, 0⟩ true (some c6Body1)
    .null .null .null .null .null .null .null .null

noncomputable def c6Mid2 : OctreeNode ℝ :=
  .mk ⟨2, 0, 0⟩ (66/5) 2 ⟨4, 0, 0⟩ false none
    .null .null .null .null .null .null c6LeafA1 c6Leaf2

set_option maxHeartbeats 1600000 in
/-- First insertion of the three-body build: the empty root adopts body 1. -/
theorem c6step1 :
    insertBody 3 (createNode (⟨2, 0, 0⟩ : Vec3 ℝ) (66/5)) c6Body1 = some c6Mid1 := by
  norm_num [createNode, insertBody_emptyEval, c6Body1, c6Mid1]

set_option maxHeartbeats 1600000 in
/-- Second insertion: the occupied leaf subdivides into octants 6 and 7. -/
theorem c6step2 : insertBody 3 c6Mid1 c6Body2 = some c6Mid2 := by
  norm_num [c6Mid1, c6Mid2, c6Body1, c6Body2, c6LeafA1, c6Leaf2, createNode,
    insertBody_emptyEval, insertBody_leafEval, insertBody_internalEval,
    childFor, getOctant, getOctantPosition, comUpdate,
    OctreeNode.getChild, OctreeNode.setChild]
  decide

set_option maxHeartbeats 1600000 in
/-- Third insertion: body 3 descends into octant 6, whose leaf subdivides
again; the root center of mass becomes exactly `(0,0,0)`. -/
theorem c6step3 : insertBody 3 c6Mid2 c6Body3 = some c6Root := by
  norm_num [c6Mid2, c6Body1, c6Body3, c6LeafA1, c6Leaf1, c6Leaf2, c6Leaf3, c6Node6,
    c6Root, createNode, insertBody_emptyEval, insertBody_leafEval, insertBody_internalEval,
    childFor, getOctant, getOctantPosition, comUpdate,
    OctreeNode.getChild, OctreeNode.setChild]

set_option maxHeartbeats 1600000 in
/-- Concrete evaluation of `buildOctree` on the three-body degenerate
configuration: masses 1, 1, 2 at `(0,0,0)`, `(8,0,0)`, `(-4,0,0)`; the
root's aggregated `centerOfMass` is exactly `(0,0,0)`, the first body's
position. -/
theorem c6Root_build : buildOctree 3 [c6Body1, c6Body2, c6Body3] = some c6Root := by
  have hbb : buildOctree 3 [c6Body1, c6Body2, c6Body3]
      = [c6Body1, c6Body2, c6Body3].foldlM (fun n bi => insertBody 3 n bi)
          (createNode ⟨2, 0, 0⟩ (66/5)) := by
    norm_num [buildOctree, c6Body1, c6Body2, c6Body3, min_def, max_def]
  rw [hbb]
  simp only [List.foldlM_cons, List.foldlM_nil]
  rw [c6step1]
  simp only [Option.bind_eq_bind, Option.some_bind]
  rw [c6step2]
  simp only [Option.bind_eq_bind, Option.some_bind]
  rw [c6step3]
  rfl

/-- Force of body 2 on body 1 in the degenerate configuration. -/
theorem c6F12 : p2GravitationalForce c6Body1.position c6Body1.mass
    c6Body2.position c6Body2.mass = ⟨GRAVITATIONAL_CONSTANT / 64, 0, 0⟩ := by
  have hv : vsub c6Body2.position c6Body1.position = ⟨8, 0, 0⟩ := by
    simp [c6Body1, c6Body2, vsub]
  have hl : Vector3Length (⟨8, 0, 0⟩ : Vec3 ℝ) = 8 := by
    rw [vlen_axis]; norm_num
  simp only [p2GravitationalForce, hv, hl]
  rw [if_neg (by norm_num : ¬ (8:ℝ) < 1)]
  rw [Vector3Normalize, hl]
  rw [if_neg (by norm_num : ¬ (8:ℝ) = 0)]
  simp only [vscale, c6Body1, c6Body2]
  refine Vec3.ext ?_ ?_ ?_ <;> norm_num <;> ring

/-- Force of body 3 on body 1 in the degenerate configuration. -/
theorem c6F13 : p2GravitationalForce c6Body1.position c6Body1.mass
    c6Body3.position c6Body3.mass = ⟨-(GRAVITATIONAL_CONSTANT / 8), 0, 0⟩ := by
  have hv : vsub c6Body3.position c6Body1.position = ⟨-4, 0, 0⟩ := by
    simp [c6Body1, c6Body3, vsub]
  have hl : Vector3Length (⟨-4, 0, 0⟩ : Vec3 ℝ) = 4 := by
    rw [vlen_axis]; norm_num
  simp only [p2GravitationalForce, hv, hl]
  rw [if_neg (by norm_num : ¬ (4:ℝ) < 1)]
  rw [Vector3Normalize, hl]
  rw [if_neg (by norm_num : ¬ (4:ℝ) = 0)]
  simp only [vscale, c6Body1, c6Body3]
  refine Vec3.ext ?_ ?_ ?_ <;> norm_num <;> ring

/-- The direct pairwise acceleration of body 1 in the degenerate
configuration: `-7 G / 64` along the x axis, in particular nonzero. -/
theorem c6_direct : p2Acceleration [c6Body1, c6Body2, c6Body3] 0
    = ⟨-7 * GRAVITATIONAL_CONSTANT / 64, 0, 0⟩ := by
  rw [p2Acceleration, p2NetForce]
  rw [show [c6Body1, c6Body2, c6Body3].length = 3 from rfl,
    show List.range 3 = [0, 1, 2] from rfl]
  simp only [List.foldl_cons, List.foldl_nil]
  rw [show [c6Body1, c6Body2, c6Body3].getD 0 default = c6Body1 from rfl,
    show [c6Body1, c6Body2, c6Body3].getD 1 default = c6Body2 from rfl,
    show [c6Body1, c6Body2, c6Body3].getD 2 default = c6Body3 from rfl]
  rw [if_neg (by norm_num : ¬ (0:ℕ) ≠ 0), if_pos (by norm_num : (0:ℕ) ≠ 1),
    if_pos (by norm_num : (0:ℕ) ≠ 2)]
  rw [c6F12, c6F13]
  simp only [vadd, vzero, vscale, c6Body1]
  refine Vec3.ext ?_ ?_ ?_ <;> norm_num <;> ring

/-- Counterexample to C6 as stated: the three bodies have pairwise-distinct
positions, yet the root's aggregated `centerOfMass` coincides with body 1's
position, so the epsilon guard drops the whole tree and the Barnes–Hut
acceleration of body 1 is `(0,0,0)` for every `theta`, while the direct
pairwise sum of `src/unnamed/part_002` is `-7G/64` along x: the difference
never shrinks as `theta` tends to 0. -/
theorem calculateAcceleration_no_convergence_degenerate :
    (c6Body1.position ≠ c6Body2.position ∧ c6Body1.position ≠ c6Body3.position ∧
      c6Body2.position ≠ c6Body3.position) ∧
    buildOctree 3 [c6Body1, c6Body2, c6Body3] = some c6Root ∧
    (∀ theta : ℝ, calculateAcceleration c6Root c6Body1.position theta vzero = vzero) ∧
    p2Acceleration [c6Body1, c6Body2, c6Body3] 0 ≠ vzero ∧
    (∀ theta : ℝ, calculateAcceleration c6Root c6Body1.position theta vzero
      ≠ p2Acceleration [c6Body1, c6Body2, c6Body3] 0) := by
  have hbh : ∀ theta : ℝ,
      calculateAcceleration c6Root c6Body1.position theta vzero = vzero := by
    intro theta
    apply calculateAcceleration_close_zero
    rw [show vsub c6Root.centerOfMass c6Body1.position = ⟨0, 0, 0⟩ by
      simp [c6Root, c6Body1, vsub]]
    rw [vlen_axis]
    norm_num [BH_EPSILON]
  have hne : p2Acceleration [c6Body1, c6Body2, c6Body3] 0 ≠ vzero := by
    rw [c6_direct]
    intro h
    have hx := congrArg Vec3.x h
    simp only [vzero] at hx
    norm_num [GRAVITATIONAL_CONSTANT] at hx
  refine ⟨⟨?_, ?_, ?_⟩, c6Root_build, hbh, hne, ?_⟩
  · norm_num [c6Body1, c6Body2, Vec3.mk.injEq]
  · norm_num [c6Body1, c6Body3, Vec3.mk.injEq]
  · norm_num [c6Body2, c6Body3, Vec3.mk.injEq]
  · intro theta h
    rw [hbh theta] at h
    exact hne h.symm
